import Mathlib

/-!
Verification of the supply_QR order-logging workflow.

This file gives a shallow embedding of the order-logging core of the
supply_QR repository (app.py, db/supabase_client.py, data/catalog.py,
services/email_service.py) and proves or refutes the specification's
claims about it.

Modelling conventions:
* Python strings are `List Char` (`Str`), so that every operation is
  kernel-computable; `str s` injects a Lean string literal.
* Python floats are modelled exactly: as rationals (`ℚ`) where values are
  abstract (the batcher's costs), and as decimal numerals `Dec`
  (mantissa / 10 ^ exponent) where values travel through CSV text.
* Stateful UI handlers become pure functions from their inputs to an
  explicit outcome record.
-/

abbrev Str : Type := List Char

/-- Inject a Lean string literal into the character-list model. -/
def str (s : String) : Str := s.data

/- ===================================================================
   Notification batcher (app.py, Generate and Log Order, lines 273-306).

   The source iterates `order_df` rows in submission order; each line
   contributes `total = qty * price`.  The loop state is
   `current_group` (product numbers) and `running_total`; a group is
   closed when `running_total + total > 4999 and current_group`.
   =================================================================== -/

/-- The batching loop of app.py lines 278-306, with the submitted lines
pre-reduced to `(product_number, qty * price)` pairs exactly as the source
computes `total` per row.  The two trailing arguments are the loop state
`current_group` and `running_total` (initially `[]` and `0.0`). -/
def batchGo : List (Str × ℚ) → List Str → ℚ → List (List Str × ℚ)
  | [], current_group, running_total =>
      if current_group.isEmpty then [] else [(current_group, running_total)]
  | (pid, total) :: rest, current_group, running_total =>
      if running_total + total > 4999 ∧ ¬ current_group.isEmpty then
        (current_group, running_total) :: batchGo rest [pid] total
      else
        batchGo rest (current_group ++ [pid]) (running_total + total)

/-- `product_groups` as assembled by app.py lines 273-306: the batching loop
started from an empty group and a zero running total. -/
def batchGroups (lines : List (Str × ℚ)) : List (List Str × ℚ) :=
  batchGo lines [] 0

/-- Refinement of `batchGo` that records the full lines placed in each group
rather than only their product numbers; used to state the partition and
per-group subtotal invariants. -/
def batchGoL : List (Str × ℚ) → List (Str × ℚ) → ℚ → List (List (Str × ℚ) × ℚ)
  | [], current_group, running_total =>
      if current_group.isEmpty then [] else [(current_group, running_total)]
  | (pid, total) :: rest, current_group, running_total =>
      if running_total + total > 4999 ∧ ¬ current_group.isEmpty then
        (current_group, running_total) :: batchGoL rest [(pid, total)] total
      else
        batchGoL rest (current_group ++ [(pid, total)]) (running_total + total)

/-- Line-level counterpart of `batchGroups`. -/
def batchGroupsL (lines : List (Str × ℚ)) : List (List (Str × ℚ) × ℚ) :=
  batchGoL lines [] 0

lemma batchGo_eq_batchGoL (ls : List (Str × ℚ)) :
    ∀ (cur : List (Str × ℚ)) (rt : ℚ),
      batchGo ls (cur.map Prod.fst) rt =
        (batchGoL ls cur rt).map (fun g => (g.1.map Prod.fst, g.2)) := by
  induction ls with
  | nil =>
      intro cur rt
      simp only [batchGo, batchGoL]
      rcases cur with _ | ⟨a, cur⟩ <;> simp
  | cons hd tl ih =>
      intro cur rt
      obtain ⟨pid, total⟩ := hd
      simp only [batchGo, batchGoL]
      have hemp : (cur.map Prod.fst).isEmpty = cur.isEmpty := by
        rcases cur with _ | ⟨a, cur⟩ <;> simp
      rw [hemp]
      split
      · have := ih [(pid, total)] total
        simp only [List.map_cons, List.map_nil] at this
        simp [this]
      · have := ih (cur ++ [(pid, total)]) (rt + total)
        simp only [List.map_append, List.map_cons, List.map_nil] at this
        simp [this]

lemma batchGoL_flatten (ls : List (Str × ℚ)) :
    ∀ (cur : List (Str × ℚ)) (rt : ℚ),
      ((batchGoL ls cur rt).map Prod.fst).flatten = cur ++ ls := by
  induction ls with
  | nil =>
      intro cur rt
      simp only [batchGoL]
      rcases cur with _ | ⟨a, cur⟩ <;> simp
  | cons hd tl ih =>
      intro cur rt
      obtain ⟨pid, total⟩ := hd
      simp only [batchGoL]
      split
      · simp [ih [(pid, total)] total]
      · simpa using ih (cur ++ [(pid, total)]) (rt + total)

lemma batchGoL_subtotal (ls : List (Str × ℚ)) :
    ∀ (cur : List (Str × ℚ)) (rt : ℚ), rt = (cur.map Prod.snd).sum →
      ∀ g ∈ batchGoL ls cur rt, g.2 = (g.1.map Prod.snd).sum := by
  induction ls with
  | nil =>
      intro cur rt hrt g hg
      simp only [batchGoL] at hg
      split at hg
      · simp at hg
      · simp at hg
        subst hg
        exact hrt
  | cons hd tl ih =>
      intro cur rt hrt g hg
      obtain ⟨pid, total⟩ := hd
      simp only [batchGoL] at hg
      split at hg
      · rcases List.mem_cons.1 hg with hg | hg
        · subst hg; exact hrt
        · exact ih [(pid, total)] total (by simp) g hg
      · refine ih (cur ++ [(pid, total)]) (rt + total) ?_ g hg
        simp [hrt]

lemma batchGo_flatten (ls : List (Str × ℚ)) :
    ∀ (cg : List Str) (rt : ℚ),
      ((batchGo ls cg rt).map Prod.fst).flatten = cg ++ ls.map Prod.fst := by
  induction ls with
  | nil =>
      intro cg rt
      simp only [batchGo]
      rcases cg with _ | ⟨a, cg⟩ <;> simp
  | cons hd tl ih =>
      intro cg rt
      obtain ⟨pid, total⟩ := hd
      simp only [batchGo]
      split
      · simp [ih [pid] total]
      · simpa using ih (cg ++ [pid]) (rt + total)

/-- C3: the batcher iterates submitted lines in order with a running subtotal
and closes the current group exactly when adding a line's cost would push the
subtotal strictly above 4999 while the group is non-empty; on costs
[3000, 3000, 100] it produces groups [[line1], [line2, line3]] with subtotals
[3000, 3100]. -/
theorem C3_batcher_threshold :
    (∀ (pid : Str) (total : ℚ) (rest : List (Str × ℚ))
        (current_group : List Str) (running_total : ℚ),
        batchGo ((pid, total) :: rest) current_group running_total =
          if running_total + total > 4999 ∧ ¬ current_group.isEmpty then
            (current_group, running_total) :: batchGo rest [pid] total
          else
            batchGo rest (current_group ++ [pid]) (running_total + total)) ∧
    batchGroups [(str "line1", 3000), (str "line2", 3000), (str "line3", 100)] =
      [([str "line1"], 3000), ([str "line2", str "line3"], 3100)] := by
  constructor
  · intro pid total rest current_group running_total
    rfl
  · show batchGo _ [] 0 = _
    rw [batchGo]
    rw [if_neg (by norm_num)]
    rw [batchGo]
    rw [if_pos (by constructor <;> norm_num)]
    rw [batchGo]
    rw [if_neg (by norm_num)]
    rw [batchGo]
    norm_num

/-- C4: a line whose own cost exceeds the ceiling still lands whole in a group
(a single 10000-cost line forms its own one-line group with subtotal 10000),
and in general no line is ever split: concatenating the groups' product-number
lists reproduces the submitted lines' product numbers in order. -/
theorem C4_oversized_line_whole :
    batchGroups [(str "big", 10000)] = [([str "big"], 10000)] ∧
    ∀ lines : List (Str × ℚ),
      ((batchGroups lines).map Prod.fst).flatten = lines.map Prod.fst := by
  constructor
  · show batchGo _ [] 0 = _
    rw [batchGo]
    rw [if_neg (by norm_num)]
    rw [batchGo]
    norm_num
  · intro lines
    simpa using batchGo_flatten lines [] 0

/-- C10: the batcher's output is a partition of the input in submission order:
the line-level groups flatten back to the submitted lines, the source's
product-number groups are their images, every group's recorded subtotal is the
sum of the costs of the lines placed in it, and the group subtotals add up to
the order's total cost. -/
theorem C10_batcher_partition (lines : List (Str × ℚ)) :
    ((batchGroupsL lines).map Prod.fst).flatten = lines ∧
    batchGroups lines = (batchGroupsL lines).map (fun g => (g.1.map Prod.fst, g.2)) ∧
    (∀ g ∈ batchGroupsL lines, g.2 = (g.1.map Prod.snd).sum) ∧
    ((batchGroups lines).map Prod.snd).sum = (lines.map Prod.snd).sum := by
  have hflat := batchGoL_flatten lines [] 0
  have hcorr := batchGo_eq_batchGoL lines [] 0
  have hsub := batchGoL_subtotal lines [] 0 (by simp)
  simp only [List.append_nil, List.nil_append, List.map_nil] at hflat hcorr
  refine ⟨hflat, hcorr, hsub, ?_⟩
  have h1 : ((batchGroups lines).map Prod.snd).sum
      = (((batchGroupsL lines).map Prod.fst).map (fun g => (g.map Prod.snd).sum)).sum := by
    rw [show batchGroups lines = batchGo lines [] 0 from rfl, hcorr]
    simp only [List.map_map]
    congr 1
    refine List.map_congr_left (fun g hg => ?_)
    simpa using hsub g hg
  have h2 : ∀ gs : List (List (Str × ℚ)),
      (gs.map (fun g => (g.map Prod.snd).sum)).sum = ((gs.flatten).map Prod.snd).sum := by
    intro gs
    induction gs with
    | nil => simp
    | cons g gs ih => simp [ih]
  rw [h1, h2, show batchGroupsL lines = batchGoL lines [] 0 from rfl, hflat]

/-- Concrete instantiation of the batcher partition invariants. -/
theorem C10_batcher_partition_witness :
    ((batchGroupsL [(str "a", 3000), (str "b", 3000)]).map Prod.fst).flatten =
      [(str "a", 3000), (str "b", 3000)] :=
  (C10_batcher_partition [(str "a", 3000), (str "b", 3000)]).1

/- ===================================================================
   Data model: catalog records and order session state.
   =================================================================== -/

/-- A decimal numeral `m / 10 ^ e`: the exact value of a Python float that
was written to or parsed from CSV text (such floats are always decimal). -/
structure Dec where
  m : Int
  e : Nat
deriving DecidableEq, Repr

/-- The rational value of a decimal numeral. -/
def Dec.toRat (d : Dec) : ℚ := (d.m : ℚ) / (10 : ℚ) ^ d.e

/-- A normalized catalog row as produced by read_catalog (catalog.py 30-73):
stripped strings, integer multiplier / items_per_order / current_qty /
sort_order, float price. -/
structure CatalogRecord where
  item : Str
  product_number : Str
  multiplier : Int
  items_per_order : Int
  current_qty : Int
  sort_order : Int
  price : Dec
deriving DecidableEq, Repr

/-- One selected order line: the dict appended by app.py lines 112-118 and
256-262 (`item` resolved from the first catalog row whose product_number
matches, `product_number` the session key, `qty` the session value). -/
structure SelectedLine where
  item : Str
  product_number : Str
  qty : Int
deriving DecidableEq, Repr

/-- The selected-lines builder of app.py lines 107-118 (preview) and 249-262
(submission): iterate the session qty_map in insertion order, keep entries
with qty > 0, resolve each against the catalog by product_number and silently
drop entries with no matching catalog row. -/
def selectedLines (qty_map : List (Str × Int)) (catalog : List CatalogRecord) :
    List SelectedLine :=
  qty_map.filterMap fun pq =>
    if (0 : Int) < pq.2 then
      match catalog.find? (fun c => c.product_number = pq.1) with
      | some c => some (SelectedLine.mk c.item pq.1 pq.2)
      | none => none
    else none

/-- C6: selectedLines never contains an entry with qty ≤ 0 nor an entry whose
product_number is absent from the current catalog; session entries with no
matching catalog row are dropped. -/
theorem C6_selected_lines_valid (qty_map : List (Str × Int))
    (catalog : List CatalogRecord) :
    ∀ l ∈ selectedLines qty_map catalog,
      0 < l.qty ∧ ∃ c ∈ catalog, c.product_number = l.product_number := by
  intro l hl
  rw [selectedLines, List.mem_filterMap] at hl
  obtain ⟨pq, _, hf⟩ := hl
  by_cases hq : 0 < pq.2
  · rw [if_pos hq] at hf
    cases hfind : catalog.find? (fun c => c.product_number = pq.1) with
    | none => rw [hfind] at hf; exact absurd hf (by simp)
    | some c =>
        rw [hfind] at hf
        have hc : c ∈ catalog := List.mem_of_find?_eq_some hfind
        have hpn : c.product_number = pq.1 := by
          have := List.find?_some hfind
          simpa using this
        obtain rfl : SelectedLine.mk c.item pq.1 pq.2 = l := by
          simpa using hf
        exact ⟨hq, c, hc, hpn⟩
  · rw [if_neg hq] at hf
    exact absurd hf (by simp)

/-- Concrete instantiation of the selectedLines guarantees. -/
theorem C6_selected_lines_valid_witness :
    0 < (SelectedLine.mk (str "Paper") (str "7") 2).qty ∧
      ∃ c ∈ [CatalogRecord.mk (str "Paper") (str "7") 1 1 0 0 ⟨0, 0⟩],
        c.product_number = (SelectedLine.mk (str "Paper") (str "7") 2).product_number :=
  C6_selected_lines_valid [(str "7", 2)]
    [CatalogRecord.mk (str "Paper") (str "7") 1 1 0 0 ⟨0, 0⟩]
    (SelectedLine.mk (str "Paper") (str "7") 2) (by decide)

/- ===================================================================
   Order submission handler (app.py, Generate and Log Order, 248-341).
   =================================================================== -/

/-- Observable outcome of one click of the Generate and Log Order button. -/
structure SubmitOutcome where
  appended : List SelectedLine
  sessionCleared : Bool
  validationError : Bool
  emailAttempted : Bool
deriving DecidableEq, Repr

/-- The Generate and Log Order click handler, app.py lines 248-341: build the
selected rows; if `order_df` is non-empty, append the rows to the log, attempt
email when SMTP is configured and some recipient resolved, and clear the
session.  The source has no `else` branch on `if not order_df.empty:` — an
empty selection skips the whole block, so no error of any kind is reported
and `validationError` can never be set. -/
def generateAndLogOrder (qty_map : List (Str × Int)) (catalog : List CatalogRecord)
    (smtpConfigured : Bool) (recipients : List Str) : SubmitOutcome :=
  let rows := selectedLines qty_map catalog
  if rows.isEmpty then
    { appended := [], sessionCleared := false, validationError := false,
      emailAttempted := false }
  else
    { appended := rows, sessionCleared := true, validationError := false,
      emailAttempted := smtpConfigured && !recipients.isEmpty }

/-- C5 counterexample: an empty submission is NOT rejected with a validation
error — the handler reports no error at all (it merely skips the block), so
the claim "rejected with a validation error and no log mutation" fails on its
first conjunct. -/
theorem C5_counterexample :
    ¬ ((generateAndLogOrder [] [] false []).validationError = true ∧
       (generateAndLogOrder [] [] false []).appended = []) := by
  decide

/-- C5 amended: submitting with an empty selection is silently ignored — no
rows are appended, the session is not cleared, no email is attempted, and no
validation error is reported. -/
theorem C5_empty_submission_ignored (qty_map : List (Str × Int))
    (catalog : List CatalogRecord) (smtpConfigured : Bool) (recipients : List Str)
    (h : selectedLines qty_map catalog = []) :
    generateAndLogOrder qty_map catalog smtpConfigured recipients =
      { appended := [], sessionCleared := false, validationError := false,
        emailAttempted := false } := by
  rw [generateAndLogOrder]
  simp [h]

/-- Concrete instantiation of the empty-submission behaviour. -/
theorem C5_empty_submission_ignored_witness :
    generateAndLogOrder [] [] true [str "a@x.com"] =
      { appended := [], sessionCleared := false, validationError := false,
        emailAttempted := false } :=
  C5_empty_submission_ignored [] [] true [str "a@x.com"] rfl

/- ===================================================================
   SMTP configuration (email_service.py 20-41).
   =================================================================== -/

/-- The `st.secrets["smtp"]` mapping restricted to the keys get_smtp_config
reads for the five required fields; a missing key is `none`. -/
structure SmtpSecrets where
  host : Option Str
  port : Option Int
  user : Option Str
  password : Option Str
  fromAddr : Option Str
deriving DecidableEq, Repr

/-- Python `s.replace(" ", "")`: remove every space character. -/
def stripSpaces (s : Str) : Str := s.filter (· ≠ ' ')

/-- The five required fields of the dict built by get_smtp_config
(email_service.py 20-35).  Input `none` models the exception path that
returns `{}` (every lookup then yields Python None); otherwise `port`
defaults to 587 and `password` defaults to "" and has spaces removed. -/
def get_smtp_config : Option SmtpSecrets → (Option Str × Option Int × Option Str × Option Str × Option Str)
  | none => (none, none, none, none, none)
  | some s =>
      (s.host, some (s.port.getD 587), s.user,
        some (stripSpaces (s.password.getD [])), s.fromAddr)

/-- Python truthiness of an optional string: None and "" are falsy. -/
def truthyStr : Option Str → Bool
  | none => false
  | some s => !s.isEmpty

/-- Python truthiness of an optional integer: None and 0 are falsy. -/
def truthyInt : Option Int → Bool
  | none => false
  | some n => n != 0

/-- smtp_ok (email_service.py 38-41): `all(cfg.get(k) for k in required)`,
i.e. every required field is truthy. -/
def smtp_ok (secrets : Option SmtpSecrets) : Bool :=
  match get_smtp_config secrets with
  | (host, port, username, password, fromAddr) =>
      truthyStr host && truthyInt port && truthyStr username &&
        truthyStr password && truthyStr fromAddr

/-- A secrets section with every field present except `port`. -/
def portlessSecrets : SmtpSecrets :=
  { host := some (str "smtp.example.com"), port := none, user := some (str "user"),
    password := some (str "pw"), fromAddr := some (str "orders@example.com") }

/-- C9 counterexample: with host/username/password/from present and `port`
absent, smtp_ok is true (port defaults to 587), so "not configured iff some
required field is absent" fails — the claimed equivalence is violated. -/
theorem C9_counterexample :
    ¬ ((smtp_ok (some portlessSecrets) = false) ↔
        (portlessSecrets.host = none ∨ portlessSecrets.port = none ∨
         portlessSecrets.user = none ∨ portlessSecrets.password = none ∨
         portlessSecrets.fromAddr = none)) := by
  decide

/-- C9 amended: the transport is "not configured" iff the secrets section is
missing altogether, or host / username / from is absent or empty, or the
password (after space removal, absent counting as empty) is empty, or the
port value (defaulting to 587 when absent) is 0; and whether SMTP is
configured has no effect on what a submission appends to the log. -/
theorem C9_not_configured_iff (secrets : Option SmtpSecrets) :
    ((smtp_ok secrets = false) ↔
      (match secrets with
       | none => True
       | some s =>
           s.host.getD [] = [] ∨ s.user.getD [] = [] ∨
           stripSpaces (s.password.getD []) = [] ∨ s.fromAddr.getD [] = [] ∨
           s.port.getD 587 = 0)) ∧
    ∀ (qty_map : List (Str × Int)) (catalog : List CatalogRecord)
      (recipients : List Str),
      (generateAndLogOrder qty_map catalog (smtp_ok secrets) recipients).appended =
        (generateAndLogOrder qty_map catalog false recipients).appended := by
  constructor
  · cases secrets with
    | none => simp [smtp_ok, get_smtp_config, truthyStr, truthyInt]
    | some s =>
        simp only [smtp_ok, get_smtp_config, truthyStr, truthyInt]
        cases hh : s.host with
        | none => simp [hh]
        | some hv =>
            cases hu : s.user with
            | none => simp [hh, hu, List.isEmpty_iff]
            | some uv =>
                cases hf : s.fromAddr with
                | none => simp [hh, hu, hf, List.isEmpty_iff]
                | some fv =>
                    cases hp : s.port with
                    | none =>
                        simp [hh, hu, hf, hp, List.isEmpty_iff]
                        tauto
                    | some pv =>
                        simp [hh, hu, hf, hp, List.isEmpty_iff]
                        tauto
  · intro qty_map catalog recipients
    rw [generateAndLogOrder, generateAndLogOrder]
    split <;> rfl

/-- Concrete instantiation of the amended smtp_ok characterization. -/
theorem C9_not_configured_iff_witness :
    (smtp_ok none = false) ↔ True :=
  (C9_not_configured_iff none).1

/- ===================================================================
   Recipient resolution (email_service.py 45-52 and 79-96).
   =================================================================== -/

/-- Python `"@" in e`: the string contains an at sign. -/
def hasAt (e : Str) : Bool := e.contains '@'

/-- Python `sorted(set(xs))` for strings: deduplicate, then sort in
lexicographic (code-point) order. -/
def sortedSet (xs : List Str) : List Str :=
  List.insertionSort (· ≤ ·) xs.dedup

/-- all_recipients (email_service.py 79-96): union of the roster-derived
email list and the configured default recipients, keeping only truthy
strings, then only strings containing an at sign, sorted. -/
def all_recipients (file_recipients : List Str) (default_to : List Str) : List Str :=
  sortedSet
    (((file_recipients.filter (fun e => !e.isEmpty)) ++
      (default_to.filter (fun e => !e.isEmpty))).filter hasAt)

/-- The recipient set computed inside send_email (email_service.py 48-49):
`sorted({e for e in (to_emails or []) + cfg["default_to"] if e and "@" in e})`. -/
def send_email_recipients (to_emails : List Str) (default_to : List Str) : List Str :=
  sortedSet ((to_emails ++ default_to).filter (fun e => !e.isEmpty && hasAt e))

/-- send_email's recipient gate (email_service.py 51-52): raise
"No recipients found." when the resolved set is empty, else proceed with it. -/
def send_email_check (to_emails : List Str) (default_to : List Str) :
    Except Str (List Str) :=
  let recipients := send_email_recipients to_emails default_to
  if recipients.isEmpty then Except.error (str "No recipients found.")
  else Except.ok recipients

/-- The composite recipient resolution of one submission: app.py line 270
passes `all_recipients(emails_df)` to send_email as its `to_emails`, alongside
any explicit recipients (the app itself passes none), and send_email adds the
default recipients again. -/
def resolveRecipients (explicit : List Str) (roster : List Str)
    (default_to : List Str) : List Str :=
  send_email_recipients (explicit ++ all_recipients roster default_to) default_to

lemma mem_sortedSet {e : Str} {xs : List Str} : e ∈ sortedSet xs ↔ e ∈ xs := by
  rw [sortedSet, List.mem_insertionSort, List.mem_dedup]

lemma sortedSet_sorted (xs : List Str) : (sortedSet xs).Sorted (· ≤ ·) :=
  List.sorted_insertionSort _ _

lemma sortedSet_nodup (xs : List Str) : (sortedSet xs).Nodup :=
  (List.perm_insertionSort _ _).nodup_iff.2 xs.nodup_dedup

/-- C7: recipient resolution yields the union of explicit, roster and default
recipients, deduplicated case-sensitively, with every string lacking an at
sign (or empty) dropped, sorted; on explicit=[],
roster=[a@x.com, a@x.com], default=[b@x.com] the result is exactly
[a@x.com, b@x.com]; and send_email fails with "No recipients found." exactly
when the resolved set is empty after filtering. -/
theorem C7_recipient_resolution :
    (∀ explicit roster default_to : List Str,
        ((resolveRecipients explicit roster default_to).Sorted (· ≤ ·) ∧
         (resolveRecipients explicit roster default_to).Nodup) ∧
        ∀ e : Str,
          e ∈ resolveRecipients explicit roster default_to ↔
            ((e ∈ explicit ∨ e ∈ roster ∨ e ∈ default_to) ∧
              e ≠ [] ∧ hasAt e = true)) ∧
    resolveRecipients [] [str "a@x.com", str "a@x.com"] [str "b@x.com"] =
      [str "a@x.com", str "b@x.com"] ∧
    ∀ to_emails default_to : List Str,
      (send_email_check to_emails default_to =
          Except.error (str "No recipients found.") ↔
        send_email_recipients to_emails default_to = []) := by
  refine ⟨?_, ?_, ?_⟩
  · intro explicit roster default_to
    refine ⟨⟨sortedSet_sorted _, sortedSet_nodup _⟩, ?_⟩
    intro e
    rw [resolveRecipients, send_email_recipients, mem_sortedSet,
      List.mem_filter, List.mem_append, List.mem_append]
    have har : e ∈ all_recipients roster default_to ↔
        ((e ∈ roster ∨ e ∈ default_to) ∧ e ≠ [] ∧ hasAt e = true) := by
      rw [all_recipients, mem_sortedSet, List.mem_filter, List.mem_append,
        List.mem_filter, List.mem_filter]
      constructor
      · rintro ⟨h | h, hat⟩
        · exact ⟨Or.inl h.1, by simpa using h.2, hat⟩
        · exact ⟨Or.inr h.1, by simpa using h.2, hat⟩
      · rintro ⟨h | h, hne, hat⟩
        · exact ⟨Or.inl ⟨h, by simpa using hne⟩, hat⟩
        · exact ⟨Or.inr ⟨h, by simpa using hne⟩, hat⟩
    constructor
    · rintro ⟨(h | h) | h, hb⟩
      · have hb' := hb
        rw [Bool.and_eq_true] at hb'
        exact ⟨Or.inl h, by simpa using hb'.1, hb'.2⟩
      · exact ⟨Or.inr (har.1 h).1, (har.1 h).2⟩
      · have hb' := hb
        rw [Bool.and_eq_true] at hb'
        exact ⟨Or.inr (Or.inr h), by simpa using hb'.1, hb'.2⟩
    · rintro ⟨h | h | h, hne, hat⟩
      · exact ⟨Or.inl (Or.inl h), by simp [hat, List.isEmpty_iff, hne]⟩
      · exact ⟨Or.inl (Or.inr (har.2 ⟨Or.inl h, hne, hat⟩)), by simp [hat, List.isEmpty_iff, hne]⟩
      · exact ⟨Or.inr h, by simp [hat, List.isEmpty_iff, hne]⟩
  · decide
  · intro to_emails default_to
    rw [send_email_check]
    cases h : send_email_recipients to_emails default_to with
    | nil => simp
    | cons a l => simp

/-- Concrete instantiation of the recipient resolution example. -/
theorem C7_recipient_resolution_witness :
    resolveRecipients [] [str "a@x.com", str "a@x.com"] [str "b@x.com"] =
      [str "a@x.com", str "b@x.com"] :=
  C7_recipient_resolution.2.1

/- ===================================================================
   Freshness reconciler (supabase_client.py 45-96, app.py 165-185).
   =================================================================== -/

/-- One row of the orders_log table.  `ordered_at` is a Nat: append_log
(supabase_client.py 23-42) always writes a zone-aware ISO timestamp string
whose lexicographic order is chronological, so timestamps embed into a
totally ordered, successfully-parsed domain. -/
structure LogEntry where
  item : Str
  product_number : Str
  qty : Int
  ordered_at : Nat
  orderer : Str
deriving DecidableEq, Repr

/-- The composite groupby/merge key (item, product_number). -/
def logKey (e : LogEntry) : Str × Str := (e.item, e.product_number)

/-- read_log (supabase_client.py 45-59): the stored rows ordered by
ordered_at descending.  The store guarantees no particular order among rows
with equal timestamps (see `IsReadLogResult` below for the full
specification); this definition picks one admissible result — a stable
descending sort — as a determinization, used only for conclusions that do
not depend on the order of timestamp ties (C1's do not). -/
def read_log (table : List LogEntry) : List LogEntry :=
  List.insertionSort (fun a b => b.ordered_at ≤ a.ordered_at) table

/-- `logs.sort_values("ordered_at")` inside last_info_map
(supabase_client.py 81-82).  pandas' default sort kind (quicksort) is not
stable (see `IsSortValuesResult` below for the full specification); this
definition picks one admissible result — a stable ascending sort — as a
determinization, used only for tie-order-invariant conclusions. -/
def sortByOrderedAt (logs : List LogEntry) : List LogEntry :=
  List.insertionSort (fun a b => a.ordered_at ≤ b.ordered_at) logs

/-- The row that `groupby(["item", "product_number"]).tail(1)` keeps for one
key: the last row with that key in the ascending-sorted frame. -/
def lastInfoFor (table : List LogEntry) (k : Str × Str) : Option LogEntry :=
  ((sortByOrderedAt (read_log table)).filter (fun e => logKey e = k)).getLast?

/-- last_info_map (supabase_client.py 62-96): one row per distinct key of the
log, carrying that key's most recent entry (the renaming to last_* columns is
left implicit; the row's ordered_at/qty/orderer are the last_* values). -/
def last_info_map (table : List LogEntry) : List LogEntry :=
  (((sortByOrderedAt (read_log table)).map logKey).dedup).filterMap (lastInfoFor table)

/-- One row of the Create Order table after the left merge (app.py 166-176):
the catalog row plus nullable freshness fields. -/
structure MergedRow where
  cat : CatalogRecord
  last_ordered_at : Option Nat
  last_qty : Option Int
  last_orderer : Option Str
deriving DecidableEq, Repr

/-- `catalog.merge(last_map, on=["item", "product_number"], how="left")`
(app.py 166-168): per catalog row, one output row per matching last_map row,
or a single row with null freshness fields when no last_map row matches. -/
def mergeLeft (catalog : List CatalogRecord) (last_map : List LogEntry) :
    List MergedRow :=
  catalog.flatMap fun c =>
    let ms := last_map.filter
      (fun e => e.item = c.item ∧ e.product_number = c.product_number)
    if ms.isEmpty then [MergedRow.mk c none none none]
    else ms.map (fun e => MergedRow.mk c (some e.ordered_at) (some e.qty) (some e.orderer))

lemma sortByOrderedAt_read_log_perm (table : List LogEntry) :
    List.Perm (sortByOrderedAt (read_log table)) table :=
  (List.perm_insertionSort _ _).trans (List.perm_insertionSort _ _)

lemma mem_sortByOrderedAt_read_log {table : List LogEntry} {e : LogEntry} :
    e ∈ sortByOrderedAt (read_log table) ↔ e ∈ table :=
  (sortByOrderedAt_read_log_perm table).mem_iff

lemma lastInfoFor_key {table : List LogEntry} {k : Str × Str} {e : LogEntry}
    (h : lastInfoFor table k = some e) : logKey e = k ∧ e ∈ table := by
  have hmem := List.mem_of_mem_getLast? h
  rw [List.mem_filter] at hmem
  refine ⟨by simpa using hmem.2, mem_sortByOrderedAt_read_log.1 hmem.1⟩

lemma lastInfoFor_isSome_iff {table : List LogEntry} {k : Str × Str} :
    (lastInfoFor table k).isSome = true ↔ ∃ e ∈ table, logKey e = k := by
  rw [lastInfoFor]
  cases hl : (sortByOrderedAt (read_log table)).filter (fun e => logKey e = k) with
  | nil =>
      simp only [List.getLast?_nil, Option.isSome_none, Bool.false_eq_true, false_iff]
      rintro ⟨e, he, hke⟩
      have : e ∈ (sortByOrderedAt (read_log table)).filter (fun e => logKey e = k) := by
        rw [List.mem_filter]
        exact ⟨mem_sortByOrderedAt_read_log.2 he, by simpa using hke⟩
      rw [hl] at this
      exact absurd this (List.not_mem_nil e)
  | cons a l =>
      constructor
      · intro _
        have ha : a ∈ (sortByOrderedAt (read_log table)).filter (fun e => logKey e = k) := by
          rw [hl]; exact List.mem_cons_self a l
        rw [List.mem_filter] at ha
        exact ⟨a, mem_sortByOrderedAt_read_log.1 ha.1, by simpa using ha.2⟩
      · intro _
        cases hgl : (a :: l).getLast? with
        | none => simp at hgl
        | some x => simp

lemma mem_last_info_map_lastInfoFor {table : List LogEntry} {e : LogEntry}
    (h : e ∈ last_info_map table) : lastInfoFor table (logKey e) = some e := by
  rw [last_info_map, List.mem_filterMap] at h
  obtain ⟨k, _, hsome⟩ := h
  obtain ⟨hk, _⟩ := lastInfoFor_key hsome
  rw [hk]
  exact hsome

lemma lastInfoFor_mem_last_info_map {table : List LogEntry} {k : Str × Str}
    {e : LogEntry} (h : lastInfoFor table k = some e) : e ∈ last_info_map table := by
  rw [last_info_map, List.mem_filterMap]
  refine ⟨k, ?_, h⟩
  rw [List.mem_dedup, List.mem_map]
  obtain ⟨hk, hmem⟩ := lastInfoFor_key h
  exact ⟨e, mem_sortByOrderedAt_read_log.2 hmem, hk⟩

lemma last_info_map_keys (table : List LogEntry) :
    (last_info_map table).map logKey =
      ((sortByOrderedAt (read_log table)).map logKey).dedup := by
  rw [last_info_map]
  have hks : ∀ k ∈ ((sortByOrderedAt (read_log table)).map logKey).dedup,
      (lastInfoFor table k).isSome = true := by
    intro k hk
    rw [List.mem_dedup, List.mem_map] at hk
    obtain ⟨e, he, hke⟩ := hk
    exact lastInfoFor_isSome_iff.2 ⟨e, mem_sortByOrderedAt_read_log.1 he, hke⟩
  generalize ((sortByOrderedAt (read_log table)).map logKey).dedup = ks at hks ⊢
  induction ks with
  | nil => simp
  | cons k ks ih =>
      have hk := hks k (List.mem_cons_self k ks)
      cases hsome : lastInfoFor table k with
      | none => rw [hsome] at hk; simp at hk
      | some e =>
          rw [List.filterMap_cons, hsome, List.map_cons, (lastInfoFor_key hsome).1,
            ih (fun k hk => hks k (List.mem_cons_of_mem _ hk))]

lemma last_info_map_keys_nodup (table : List LogEntry) :
    ((last_info_map table).map logKey).Nodup := by
  rw [last_info_map_keys]
  exact List.nodup_dedup _

lemma length_filter_key_le_one {l : List LogEntry}
    (hn : (l.map logKey).Nodup) (k : Str × Str) :
    (l.filter (fun e => logKey e = k)).length ≤ 1 := by
  induction l with
  | nil => simp
  | cons a l ih =>
      rw [List.map_cons, List.nodup_cons] at hn
      rw [List.filter_cons]
      by_cases hak : logKey a = k
      · rw [if_pos (by simpa using hak)]
        have : l.filter (fun e => logKey e = k) = [] := by
          rw [List.filter_eq_nil_iff]
          intro e he hke
          refine hn.1 ?_
          rw [List.mem_map]
          exact ⟨e, he, by rw [(by simpa using hke : logKey e = k), hak]⟩
        rw [this]
        simp
      · rw [if_neg (by simpa using hak)]
        exact ih hn.2

lemma filter_last_info_map_eq (table : List LogEntry) (c : CatalogRecord) :
    (last_info_map table).filter
        (fun e => e.item = c.item ∧ e.product_number = c.product_number) =
      (lastInfoFor table (c.item, c.product_number)).toList := by
  have hpred : ∀ e : LogEntry,
      (e.item = c.item ∧ e.product_number = c.product_number) ↔
        logKey e = (c.item, c.product_number) := by
    intro e
    rw [logKey, Prod.mk.injEq]
  cases hsome : lastInfoFor table (c.item, c.product_number) with
  | none =>
      rw [Option.toList_none, List.filter_eq_nil_iff]
      intro e he hke
      have : lastInfoFor table (c.item, c.product_number) = some e := by
        rw [← (hpred e).1 (by simpa using hke)]
        exact mem_last_info_map_lastInfoFor he
      rw [hsome] at this
      exact absurd this (by simp)
  | some e =>
      have hmem : e ∈ (last_info_map table).filter
          (fun x => x.item = c.item ∧ x.product_number = c.product_number) := by
        rw [List.mem_filter]
        refine ⟨lastInfoFor_mem_last_info_map hsome, ?_⟩
        have := (lastInfoFor_key hsome).1
        simpa using (hpred e).2 this
      have hlen : ((last_info_map table).filter
          (fun x => x.item = c.item ∧ x.product_number = c.product_number)).length ≤ 1 := by
        have heq : (last_info_map table).filter
            (fun x => x.item = c.item ∧ x.product_number = c.product_number) =
            (last_info_map table).filter
              (fun x => logKey x = (c.item, c.product_number)) := by
          refine List.filter_congr (fun x _ => ?_)
          simp [hpred x]
        rw [heq]
        exact length_filter_key_le_one (last_info_map_keys_nodup table) _
      rw [Option.toList_some]
      cases hfl : (last_info_map table).filter
          (fun x => x.item = c.item ∧ x.product_number = c.product_number) with
      | nil => rw [hfl] at hmem; exact absurd hmem (List.not_mem_nil e)
      | cons a l =>
          rw [hfl] at hmem hlen
          cases l with
          | nil =>
              rcases List.mem_singleton.1 hmem with rfl
              rfl
          | cons b l => simp at hlen

/-- C1: the reconciliation yields exactly one freshness row per catalog row
(the merged rows' catalog parts are the catalog, in order), and a row's
last_ordered_at is null exactly when no log entry shares that row's
(item, product_number) key. -/
theorem C1_freshness_rows (table : List LogEntry) (catalog : List CatalogRecord) :
    (mergeLeft catalog (last_info_map table)).map MergedRow.cat = catalog ∧
    ∀ r ∈ mergeLeft catalog (last_info_map table),
      (r.last_ordered_at = none ↔
        ¬ ∃ e ∈ table,
            e.item = r.cat.item ∧ e.product_number = r.cat.product_number) := by
  constructor
  · induction catalog with
    | nil => rfl
    | cons c cat ih =>
        have hstep : mergeLeft (c :: cat) (last_info_map table) =
            (let ms := (last_info_map table).filter
              (fun e => e.item = c.item ∧ e.product_number = c.product_number);
             if ms.isEmpty then [MergedRow.mk c none none none]
             else ms.map (fun e =>
               MergedRow.mk c (some e.ordered_at) (some e.qty) (some e.orderer))) ++
            mergeLeft cat (last_info_map table) := by
          rw [mergeLeft, List.flatMap_cons]
          rfl
        rw [hstep, List.map_append, ih]
        cases hsome : lastInfoFor table (c.item, c.product_number) with
        | none =>
            simp only [filter_last_info_map_eq table c, hsome, Option.toList_none]
            simp
        | some e =>
            simp only [filter_last_info_map_eq table c, hsome, Option.toList_some]
            simp
  · intro r hr
    rw [mergeLeft, List.mem_flatMap] at hr
    obtain ⟨c, _, hrc⟩ := hr
    simp only [filter_last_info_map_eq table c] at hrc
    cases hsome : lastInfoFor table (c.item, c.product_number) with
    | none =>
        rw [hsome] at hrc
        simp only [Option.toList_none, List.isEmpty_nil, if_pos] at hrc
        rcases List.mem_singleton.1 hrc with rfl
        simp only [true_iff]
        rintro ⟨e, he, hi, hp⟩
        have : (lastInfoFor table (c.item, c.product_number)).isSome = true :=
          lastInfoFor_isSome_iff.2 ⟨e, he, by rw [logKey, hi, hp]⟩
        rw [hsome] at this
        exact absurd this (by simp)
    | some e =>
        rw [hsome] at hrc
        simp only [Option.toList_some] at hrc
        rw [if_neg (by simp)] at hrc
        simp only [List.map_cons, List.map_nil] at hrc
        rcases List.mem_singleton.1 hrc with rfl
        obtain ⟨hk, hmem⟩ := lastInfoFor_key hsome
        rw [logKey, Prod.mk.injEq] at hk
        have hex : ∃ e' ∈ table,
            e'.item = c.item ∧ e'.product_number = c.product_number :=
          ⟨e, hmem, hk.1, hk.2⟩
        simp [hex]

/-- Concrete instantiation of the reconciliation row correspondence. -/
theorem C1_freshness_rows_witness :
    (mergeLeft [CatalogRecord.mk (str "Paper") (str "7") 1 1 0 0 ⟨25, 1⟩]
        (last_info_map [LogEntry.mk (str "Paper") (str "7") 2 5 (str "amy")])).map
      MergedRow.cat = [CatalogRecord.mk (str "Paper") (str "7") 1 1 0 0 ⟨25, 1⟩] :=
  (C1_freshness_rows [LogEntry.mk (str "Paper") (str "7") 2 5 (str "amy")]
    [CatalogRecord.mk (str "Paper") (str "7") 1 1 0 0 ⟨25, 1⟩]).1

/-- Admissible results of the store's `order("ordered_at", desc=True)`
(supabase_client.py 46-52): any permutation of the stored rows that is
sorted descending by timestamp.  Postgres guarantees no particular order
among rows with equal timestamps, so every such permutation is a possible
read_log result. -/
def IsReadLogResult (table out : List LogEntry) : Prop :=
  List.Perm out table ∧ out.Sorted (fun a b => b.ordered_at ≤ a.ordered_at)

/-- Admissible results of `logs.sort_values("ordered_at")` inside
last_info_map (supabase_client.py 81-82): any permutation of the input that
is sorted ascending by timestamp.  pandas' default sort kind (quicksort) is
not stable, so rows with equal timestamps may land in any order. -/
def IsSortValuesResult (input out : List LogEntry) : Prop :=
  List.Perm out input ∧ out.Sorted (fun a b => a.ordered_at ≤ b.ordered_at)

/-- The row `groupby(["item", "product_number"]).tail(1)` keeps for one key
from a given (sorted) frame: the last row with that key. -/
def lastInfoForFrame (frame : List LogEntry) (k : Str × Str) : Option LogEntry :=
  (frame.filter (fun e => logKey e = k)).getLast?

instance logEntryDescTotal :
    IsTotal LogEntry (fun a b => b.ordered_at ≤ a.ordered_at) :=
  ⟨fun a b => Nat.le_total b.ordered_at a.ordered_at⟩

instance logEntryDescTrans :
    IsTrans LogEntry (fun a b => b.ordered_at ≤ a.ordered_at) :=
  ⟨fun _ _ _ h1 h2 => le_trans h2 h1⟩

instance logEntryAscTotal :
    IsTotal LogEntry (fun a b => a.ordered_at ≤ b.ordered_at) :=
  ⟨fun a b => Nat.le_total a.ordered_at b.ordered_at⟩

instance logEntryAscTrans :
    IsTrans LogEntry (fun a b => a.ordered_at ≤ b.ordered_at) :=
  ⟨fun _ _ _ h1 h2 => le_trans h1 h2⟩

lemma read_log_isReadLogResult (table : List LogEntry) :
    IsReadLogResult table (read_log table) :=
  ⟨List.perm_insertionSort _ _, List.sorted_insertionSort _ _⟩

lemma sortByOrderedAt_isSortValuesResult (logs : List LogEntry) :
    IsSortValuesResult logs (sortByOrderedAt logs) :=
  ⟨List.perm_insertionSort _ _, List.sorted_insertionSort _ _⟩

lemma getLast?_le_of_sorted (l : List LogEntry)
    (hs : l.Sorted (fun a b => a.ordered_at ≤ b.ordered_at)) (e : LogEntry)
    (he : l.getLast? = some e) : ∀ x ∈ l, x.ordered_at ≤ e.ordered_at := by
  induction l with
  | nil => simp at he
  | cons a l ih =>
      intro x hx
      cases l with
      | nil =>
          rcases List.mem_singleton.1 hx with rfl
          simp only [List.getLast?_singleton, Option.some.injEq] at he
          rw [he]
      | cons b l' =>
          rw [List.getLast?_cons_cons] at he
          rw [List.sorted_cons] at hs
          rcases List.mem_cons.1 hx with rfl | hx'
          · exact hs.1 e (List.mem_of_mem_getLast? he)
          · exact ih hs.2 he x hx'

/-- The two tied log rows of the C2 scenario: same key, equal timestamps,
inserted first. -/
def tiedEntryA : LogEntry := LogEntry.mk (str "A") (str "1") 1 5 (str "amy")

/-- The later insertion of the C2 scenario. -/
def tiedEntryB : LogEntry := LogEntry.mk (str "A") (str "1") 2 5 (str "bob")

/-- C2 counterexample: with two entries sharing a key and an equal timestamp,
the frame [tiedEntryB, tiedEntryA] is an admissible result of the store's
descending read followed by the ascending sort_values (both sorts give no
guarantee among equal timestamps), and on it the groupby tail selects
tiedEntryA — NOT tiedEntryB, the entry appearing last in insertion order.
The last-insertion-wins tie-break is therefore not a property the program
guarantees. -/
theorem C2_counterexample :
    IsReadLogResult [tiedEntryA, tiedEntryB] [tiedEntryA, tiedEntryB] ∧
    IsSortValuesResult [tiedEntryA, tiedEntryB] [tiedEntryB, tiedEntryA] ∧
    lastInfoForFrame [tiedEntryB, tiedEntryA] (str "A", str "1") = some tiedEntryA ∧
    ([tiedEntryA, tiedEntryB].filter
        (fun e => logKey e = (str "A", str "1"))).getLast? = some tiedEntryB ∧
    tiedEntryA ≠ tiedEntryB := by
  refine ⟨⟨by decide, by decide⟩, ⟨List.Perm.swap _ _ _, by decide⟩, ?_, ?_, ?_⟩
  · decide
  · decide
  · decide

/-- C2 amended: for two or more entries sharing a key, on every admissible
execution of the reconciler pipeline (store read sorted descending, pandas
re-sort ascending, both with unspecified tie order) the groupby tail selects
SOME entry of the log with that key achieving the maximal timestamp — which
of several timestamp-tied entries is selected is unspecified. -/
theorem C2_tie_selection_maximal (table r1 r2 : List LogEntry) (k : Str × Str)
    (h1 : IsReadLogResult table r1) (h2 : IsSortValuesResult r1 r2)
    (hlen : 2 ≤ (table.filter (fun e => logKey e = k)).length) :
    ∃ e, lastInfoForFrame r2 k = some e ∧ e ∈ table ∧ logKey e = k ∧
      ∀ x ∈ table, logKey x = k → x.ordered_at ≤ e.ordered_at := by
  have hmem : ∀ x : LogEntry, x ∈ r2 ↔ x ∈ table := by
    intro x
    exact (h2.1.trans h1.1).mem_iff
  have hex : ∃ x ∈ table, logKey x = k := by
    cases hflt : table.filter (fun e => logKey e = k) with
    | nil => rw [hflt] at hlen; simp at hlen
    | cons a l =>
        have ha : a ∈ table.filter (fun e => logKey e = k) := by
          rw [hflt]; exact List.mem_cons_self a l
        rw [List.mem_filter] at ha
        exact ⟨a, ha.1, by simpa using ha.2⟩
  obtain ⟨x0, hx0, hkx0⟩ := hex
  have hx0r2 : x0 ∈ r2.filter (fun e => logKey e = k) := by
    rw [List.mem_filter]
    exact ⟨(hmem x0).2 hx0, by simpa using hkx0⟩
  cases hflt2 : r2.filter (fun e => logKey e = k) with
  | nil => rw [hflt2] at hx0r2; exact absurd hx0r2 (List.not_mem_nil x0)
  | cons a l =>
      cases hlast : (a :: l).getLast? with
      | none => simp at hlast
      | some e =>
          have hef : e ∈ r2.filter (fun x => logKey x = k) := by
            rw [hflt2]
            exact List.mem_of_mem_getLast? hlast
          rw [List.mem_filter] at hef
          refine ⟨e, ?_, (hmem e).1 hef.1, by simpa using hef.2, ?_⟩
          · rw [lastInfoForFrame, hflt2]
            exact hlast
          · intro x hx hkx
            have hsorted : (r2.filter (fun e => logKey e = k)).Sorted
                (fun a b => a.ordered_at ≤ b.ordered_at) :=
              h2.2.filter _
            have hxf : x ∈ r2.filter (fun e => logKey e = k) := by
              rw [List.mem_filter]
              exact ⟨(hmem x).2 hx, by simpa using hkx⟩
            refine getLast?_le_of_sorted _ hsorted e ?_ x hxf
            rw [hflt2]
            exact hlast

/-- Concrete instantiation of the amended tie behaviour on an admissible
execution that reverses the tied pair. -/
theorem C2_tie_selection_maximal_witness :
    ∃ e, lastInfoForFrame [tiedEntryB, tiedEntryA] (str "A", str "1") = some e ∧
      e ∈ [tiedEntryA, tiedEntryB] ∧ logKey e = (str "A", str "1") ∧
      ∀ x ∈ [tiedEntryA, tiedEntryB], logKey x = (str "A", str "1") →
        x.ordered_at ≤ e.ordered_at :=
  C2_tie_selection_maximal [tiedEntryA, tiedEntryB] [tiedEntryA, tiedEntryB]
    [tiedEntryB, tiedEntryA] (str "A", str "1")
    ⟨by decide, by decide⟩ ⟨List.Perm.swap _ _ _, by decide⟩ (by decide)

/- ===================================================================
   Catalog CSV round-trip (data/catalog.py 30-80).

   write_catalog is `df.to_csv`; read_catalog is `pd.read_csv` (with its
   column-wise dtype inference) followed by explicit normalization.  The
   model renders cells to text and re-parses whole columns: a column whose
   non-NA texts all parse as int64 becomes an integer column, else a float
   column if they all parse as floats (scientific notation included), else
   a boolean column if they are all bool tokens, else a string column; the
   NA token list is pandas' read_csv default.  Python float repr is
   modelled on decimal numerals (`Dec`) printed positionally, which covers
   the floats the catalog columns hold; the roundtrip guarantee below is
   stated only for strings (`csvPlainStr`) and int64-range integers on
   which this rendering agrees with the real one.
   =================================================================== -/

/-- A cell of a tabular column: string, integer, float or missing. -/
inductive Cell where
  | s (v : Str)
  | i (v : Int)
  | f (v : Dec)
  | b (v : Bool)
  | na
deriving DecidableEq, Repr

/-- Character of a decimal digit. -/
def digitChar : Nat → Char
  | 0 => '0' | 1 => '1' | 2 => '2' | 3 => '3' | 4 => '4'
  | 5 => '5' | 6 => '6' | 7 => '7' | 8 => '8' | _ => '9'

/-- Digit value of a character, if it is a decimal digit. -/
def charDigit? (c : Char) : Option Nat :=
  if c = '0' then some 0 else if c = '1' then some 1
  else if c = '2' then some 2 else if c = '3' then some 3
  else if c = '4' then some 4 else if c = '5' then some 5
  else if c = '6' then some 6 else if c = '7' then some 7
  else if c = '8' then some 8 else if c = '9' then some 9
  else none

/-- Little-endian decimal digits of `n` (fuel-driven; fuel `n` suffices). -/
def natDigitsAux : Nat → Nat → List Nat
  | 0, _ => []
  | fuel + 1, n => if n = 0 then [] else n % 10 :: natDigitsAux fuel (n / 10)

/-- Python `str` of a natural number. -/
def natChars (n : Nat) : List Char :=
  if n = 0 then ['0'] else ((natDigitsAux n n).map digitChar).reverse

/-- Python `str` of an integer. -/
def intChars (m : Int) : Str :=
  if m < 0 then '-' :: natChars m.natAbs else natChars m.natAbs

/-- Parse a non-empty all-digit string (leading zeros allowed), big-endian
accumulator loop. -/
def parseNatDigitsAux : List Char → Nat → Option Nat
  | [], acc => some acc
  | c :: cs, acc =>
      match charDigit? c with
      | some d => parseNatDigitsAux cs (acc * 10 + d)
      | none => none

/-- Parse a digit string to a natural number; fails on empty or non-digit. -/
def parseNatDigits? (cs : List Char) : Option Nat :=
  if cs.isEmpty then none else parseNatDigitsAux cs 0

/-- Signed integer numeral parse (optional leading minus or plus). -/
def parseIntRaw? : Str → Option Int
  | [] => none
  | c :: rest =>
      if c = '-' then (parseNatDigits? rest).map (fun n => -(n : Int))
      else if c = '+' then (parseNatDigits? rest).map (fun n => (n : Int))
      else (parseNatDigits? (c :: rest)).map (fun n => (n : Int))

/-- Smallest int64 value. -/
def int64Min : Int := -9223372036854775808

/-- Largest int64 value. -/
def int64Max : Int := 9223372036854775807

/-- Is the integer representable in an int64 column? -/
def inInt64 (m : Int) : Bool := int64Min ≤ m && m ≤ int64Max

/-- Integer parse as done by the CSV reader: an integer column is int64, so
a numeral outside the int64 range does not count as an integer (pandas then
falls back to float64). -/
def parseInt? (cs : Str) : Option Int :=
  (parseIntRaw? cs).bind (fun m => if inInt64 m then some m else none)

/-- Strip factors of ten so the numeral has no trailing fractional zeros;
the float a decimal string parses to prints back in this canonical form. -/
def decCanonAux : Int → Nat → Dec
  | m, 0 => Dec.mk m 0
  | m, e + 1 => if m % 10 = 0 then decCanonAux (m / 10) e else Dec.mk m (e + 1)

/-- Canonical form of a decimal numeral. -/
def decCanon (d : Dec) : Dec := decCanonAux d.m d.e

/-- Digit string of `n` zero-padded on the left to more than `e` digits (the
integer-and-fraction digits of an unsigned float repr). -/
def padDigits (n e : Nat) : Str :=
  if (natChars n).length ≤ e then
    List.replicate (e + 1 - (natChars n).length) '0' ++ natChars n
  else natChars n

/-- Unsigned part of a float repr: integer digits (zero-padded when the value
is below one), a dot, and the fractional digits (a lone 0 when the exponent
is zero). -/
def decCharsBody (n : Nat) (e : Nat) : Str :=
  (padDigits n e).take ((padDigits n e).length - e) ++ '.' ::
    (if e = 0 then ['0'] else (padDigits n e).drop ((padDigits n e).length - e))

/-- Python float repr of a decimal numeral. -/
def decChars (p : Dec) : Str :=
  (if p.m < 0 then ['-'] else []) ++ decCharsBody p.m.natAbs p.e

/-- Float parse of an unsigned decimal string: integer part, dot, fractional
part; either part may be empty but not both; the result is canonicalized
(the parsed float forgets trailing fractional zeros). -/
def parseDecNonneg? (cs : Str) : Option Dec :=
  let intPart := cs.takeWhile (fun c => c ≠ '.')
  let rest := cs.dropWhile (fun c => c ≠ '.')
  match rest with
  | [] => (parseNatDigits? intPart).map (fun n => Dec.mk (n : Int) 0)
  | _ :: frac =>
      if frac.contains '.' then none
      else if intPart.isEmpty ∧ frac.isEmpty then none
      else
        match (if intPart.isEmpty then some 0 else parseNatDigits? intPart),
            (if frac.isEmpty then some 0 else parseNatDigits? frac) with
        | some ip, some fp =>
            some (decCanon (Dec.mk ((ip * 10 ^ frac.length + fp : Nat) : Int) frac.length))
        | _, _ => none

/-- Mantissa parse with optional leading minus (no exponent part). -/
def parseSignedMant? : Str → Option Dec
  | [] => none
  | c :: rest =>
      if c = '-' then (parseDecNonneg? rest).map (fun d => Dec.mk (-d.m) d.e)
      else parseDecNonneg? (c :: rest)

/-- Exponent marker of scientific notation. -/
def isExpChar (c : Char) : Bool := c = 'e' || c = 'E'

/-- Scale a decimal numeral by 10 to the integer power k. -/
def applyExp (d : Dec) (k : Int) : Dec :=
  if 0 ≤ k then
    if d.e ≤ k.natAbs then Dec.mk (d.m * (10 : Int) ^ (k.natAbs - d.e)) 0
    else Dec.mk d.m (d.e - k.natAbs)
  else Dec.mk d.m (d.e + k.natAbs)

/-- Float parse: a signed mantissa, optionally followed by an e/E exponent
(scientific notation, as accepted by pandas' float parser). -/
def parseDec? (cs : Str) : Option Dec :=
  if cs.any isExpChar then
    (parseSignedMant? (cs.takeWhile (fun c => !isExpChar c))).bind (fun d =>
      (parseIntRaw? ((cs.dropWhile (fun c => !isExpChar c)).drop 1)).map
        (fun k => applyExp d k))
  else parseSignedMant? cs

/-- The pandas read_csv default na_values tokens. -/
def naTokens : List Str :=
  [[], str "-1.#IND", str "1.#QNAN", str "1.#IND", str "-1.#QNAN",
   str "#N/A N/A", str "#N/A", str "N/A", str "n/a", str "NA", str "<NA>",
   str "#NA", str "NULL", str "null", str "NaN", str "-NaN", str "nan",
   str "-nan", str "None"]

/-- The true tokens of read_csv's boolean column inference. -/
def boolTrueTokens : List Str := [str "TRUE", str "True", str "true"]

/-- The false tokens of read_csv's boolean column inference. -/
def boolFalseTokens : List Str := [str "FALSE", str "False", str "false"]

/-- All boolean tokens. -/
def boolTokens : List Str := boolTrueTokens ++ boolFalseTokens

/-- Infinity tokens the float parser accepts. -/
def infTokens : List Str :=
  [str "inf", str "-inf", str "+inf", str "Inf", str "-Inf", str "+Inf",
   str "INF", str "-INF", str "Infinity", str "-Infinity", str "+Infinity",
   str "infinity", str "-infinity", str "INFINITY", str "-INFINITY"]

/-- Every token that read_csv treats specially rather than as a plain
string: NA markers, booleans and infinities. -/
def specialTokens : List Str := naTokens ++ boolTokens ++ infTokens

/-- Is this cell text one of the NA tokens? -/
def isNAtext (cs : Str) : Bool := naTokens.contains cs

/-- Text written for a cell by `df.to_csv` (missing cells are empty). -/
def cellText : Cell → Str
  | .s v => v
  | .i v => intChars v
  | .f v => decChars v
  | .b v => if v then str "True" else str "False"
  | .na => []

/-- pandas `astype(str)` of a parsed cell (`NaN` prints as "nan"). -/
def cellToStr : Cell → Str
  | .s v => v
  | .i v => intChars v
  | .f v => decChars v
  | .b v => if v then str "True" else str "False"
  | .na => str "nan"

/-- Column-wise dtype inference of `pd.read_csv`: an integer column when all
non-NA texts parse as int64 (promoted to float64 when the column also has
missing values, as int64 cannot hold NaN), else a float column when they all
parse as floats, else a boolean column when they are all bool tokens, else a
string (object) column; NA tokens become missing cells. -/
def colParse (texts : List Str) : List Cell :=
  if (texts.filter (fun t => !isNAtext t)).all (fun t => (parseInt? t).isSome) then
    texts.map fun t =>
      if isNAtext t then Cell.na else
        match parseInt? t with
        | some n => if texts.any isNAtext then Cell.f (Dec.mk n 0) else Cell.i n
        | none => Cell.na
  else if (texts.filter (fun t => !isNAtext t)).all (fun t => (parseDec? t).isSome) then
    texts.map fun t =>
      if isNAtext t then Cell.na else
        match parseDec? t with
        | some d => Cell.f d
        | none => Cell.na
  else if (texts.filter (fun t => !isNAtext t)).all (fun t => boolTokens.contains t) then
    texts.map fun t =>
      if isNAtext t then Cell.na else Cell.b (boolTrueTokens.contains t)
  else
    texts.map fun t => if isNAtext t then Cell.na else Cell.s t

/-- Whitespace for Python str.strip (the characters that can occur here). -/
def isSpaceChar (c : Char) : Bool :=
  c == ' ' || c == '\t' || c == '\n' || c == '\r'

/-- Python `str.strip()`. -/
def stripStr (s : Str) : Str :=
  ((s.dropWhile isSpaceChar).reverse.dropWhile isSpaceChar).reverse

/-- pandas `pd.to_numeric(_, errors="coerce")` on one parsed cell. -/
def toNumeric? : Cell → Option Dec
  | .i v => some (Dec.mk v 0)
  | .f v => some v
  | .b v => some (Dec.mk (if v then 1 else 0) 0)
  | .na => none
  | .s v =>
      match parseInt? v with
      | some n => some (Dec.mk n 0)
      | none => parseDec? v

/-- numpy float-to-int cast (`astype(int)`): truncation toward zero. -/
def truncDec (d : Dec) : Int :=
  if d.m < 0 then -((d.m.natAbs / 10 ^ d.e : Nat) : Int)
  else ((d.m.natAbs / 10 ^ d.e : Nat) : Int)

/-- A catalog DataFrame: row count plus the seven known columns, each either
absent or a cell list (extra columns are irrelevant to the claims). -/
structure CatalogDF where
  nrows : Nat
  item : Option (List Cell)
  product_number : Option (List Cell)
  multiplier : Option (List Cell)
  items_per_order : Option (List Cell)
  current_qty : Option (List Cell)
  sort_order : Option (List Cell)
  price : Option (List Cell)
deriving DecidableEq, Repr

/-- The CSV file on disk: the same columns as cell texts. -/
structure CsvFile where
  nrows : Nat
  item : Option (List Str)
  product_number : Option (List Str)
  multiplier : Option (List Str)
  items_per_order : Option (List Str)
  current_qty : Option (List Str)
  sort_order : Option (List Str)
  price : Option (List Str)
deriving DecidableEq, Repr

/-- write_catalog (catalog.py 76-80): `df.to_csv` renders every present
column cell-by-cell. -/
def write_catalog (df : CatalogDF) : CsvFile :=
  CsvFile.mk df.nrows (df.item.map (List.map cellText))
    (df.product_number.map (List.map cellText))
    (df.multiplier.map (List.map cellText))
    (df.items_per_order.map (List.map cellText))
    (df.current_qty.map (List.map cellText))
    (df.sort_order.map (List.map cellText))
    (df.price.map (List.map cellText))

/-- `pd.read_csv` on the stored file: per-column dtype inference. -/
def parseCsv (fl : CsvFile) : CatalogDF :=
  CatalogDF.mk fl.nrows (fl.item.map colParse) (fl.product_number.map colParse)
    (fl.multiplier.map colParse) (fl.items_per_order.map colParse)
    (fl.current_qty.map colParse) (fl.sort_order.map colParse)
    (fl.price.map colParse)

/-- Cell of an optional column at row `i` (catalog.py 48-58: a missing
column is filled with NA). -/
def colCell (o : Option (List Cell)) (i : Nat) : Cell :=
  match o with
  | none => Cell.na
  | some cs => cs.getD i Cell.na

/-- The normalization pipeline of read_catalog (catalog.py 30-73) applied to
a parsed DataFrame: empty frames yield the empty catalog; otherwise strings
are stringified and stripped, numeric fields coerced with their defaults
(multiplier/items_per_order 1, current_qty 0, price 0.0) and cast to int
where the source does, and sort_order falls back to the row position. -/
def read_catalog_df (df : CatalogDF) : List CatalogRecord :=
  if df.nrows = 0 ∨ (df.item.isNone ∧ df.product_number.isNone ∧
      df.multiplier.isNone ∧ df.items_per_order.isNone ∧ df.current_qty.isNone ∧
      df.sort_order.isNone ∧ df.price.isNone) then []
  else
    (List.range df.nrows).map fun i =>
      CatalogRecord.mk
        (stripStr (cellToStr (colCell df.item i)))
        (stripStr (cellToStr (colCell df.product_number i)))
        (truncDec ((toNumeric? (colCell df.multiplier i)).getD (Dec.mk 1 0)))
        (truncDec ((toNumeric? (colCell df.items_per_order i)).getD (Dec.mk 1 0)))
        (truncDec ((toNumeric? (colCell df.current_qty i)).getD (Dec.mk 0 0)))
        (match toNumeric? (colCell df.sort_order i) with
          | some d => truncDec d
          | none => (i : Int))
        ((toNumeric? (colCell df.price i)).getD (Dec.mk 0 0))

/-- read_catalog (catalog.py 30-73): parse the stored CSV, then normalize. -/
def read_catalog (fl : CsvFile) : List CatalogRecord :=
  read_catalog_df (parseCsv fl)

/-- Re-parse a written string column the way read_catalog will see it
(astype(str) then strip); the column is CSV-stable when this is the
identity. -/
def colRoundtripStrs (vs : List Str) : List Str :=
  (colParse vs).map (fun c => stripStr (cellToStr c))

/-- Characters that can occur inside a numeric token (integer or float,
scientific notation included). -/
def numericishChar (c : Char) : Bool :=
  (charDigit? c).isSome || c = '-' || c = '+' || c = '.' || isExpChar c

/-- Characters of the model's numeral renderings (intChars, decChars). -/
def numeralChar (c : Char) : Bool := (charDigit? c).isSome || c = '-' || c = '.'

/-- A plain CSV string: nonempty, fixed by strip, not one of read_csv's
special tokens, and containing at least one character that cannot occur in
a numeric token.  read_csv keeps a column of such strings as object dtype
with every value verbatim, so they survive the catalog round trip. -/
def csvPlainStr (s : Str) : Bool :=
  !s.isEmpty && (stripStr s == s) && !specialTokens.contains s &&
    s.any (fun c => !numericishChar c)

/-- Little-endian value of a digit list. -/
def digitsVal : List Nat → Nat
  | [] => 0
  | d :: ds => d + 10 * digitsVal ds

lemma charDigit_digitChar (d : Nat) (hd : d < 10) :
    charDigit? (digitChar d) = some d := by
  interval_cases d <;> rfl

lemma natDigitsAux_lt (fuel : Nat) : ∀ n, ∀ d ∈ natDigitsAux fuel n, d < 10 := by
  induction fuel with
  | zero => intro n d hd; simp [natDigitsAux] at hd
  | succ fuel ih =>
      intro n d hd
      rw [natDigitsAux] at hd
      split at hd
      · simp at hd
      · rcases List.mem_cons.1 hd with rfl | hd
        · exact Nat.mod_lt n (by norm_num)
        · exact ih _ d hd

lemma natDigitsAux_val (fuel : Nat) : ∀ n, n ≤ fuel →
    digitsVal (natDigitsAux fuel n) = n := by
  induction fuel with
  | zero =>
      intro n hn
      interval_cases n
      rfl
  | succ fuel ih =>
      intro n hn
      rw [natDigitsAux]
      split
      · next h => rw [h]; rfl
      · next h =>
          rw [digitsVal, ih (n / 10) ?_]
          · exact Nat.mod_add_div n 10
          · have h1 : n / 10 < n := Nat.div_lt_self (Nat.pos_of_ne_zero h) (by norm_num)
            omega

lemma natDigitsAux_ne_nil (n : Nat) (hn : n ≠ 0) : natDigitsAux n n ≠ [] := by
  cases n with
  | zero => exact absurd rfl hn
  | succ m =>
      rw [natDigitsAux, if_neg (Nat.succ_ne_zero m)]
      simp

lemma foldl_digits_acc (ds : List Nat) : ∀ acc : Nat,
    ds.foldl (fun a d => a * 10 + d) acc =
      acc * 10 ^ ds.length + ds.foldl (fun a d => a * 10 + d) 0 := by
  induction ds with
  | nil => intro acc; simp
  | cons d ds ih =>
      intro acc
      rw [List.foldl_cons, List.foldl_cons, ih (acc * 10 + d), ih (0 * 10 + d),
        List.length_cons]
      ring

lemma foldl_reverse_digitsVal (ds : List Nat) :
    (ds.reverse).foldl (fun a d => a * 10 + d) 0 = digitsVal ds := by
  induction ds with
  | nil => rfl
  | cons d ds ih =>
      rw [List.reverse_cons, List.foldl_append, ih, digitsVal, List.foldl_cons,
        List.foldl_nil]
      ring

lemma parseNatDigitsAux_map (ds : List Nat) : ∀ acc, (∀ d ∈ ds, d < 10) →
    parseNatDigitsAux (ds.map digitChar) acc =
      some (ds.foldl (fun a d => a * 10 + d) acc) := by
  induction ds with
  | nil => intro acc _; rfl
  | cons d ds ih =>
      intro acc hall
      rw [List.map_cons, parseNatDigitsAux,
        charDigit_digitChar d (hall d (List.mem_cons_self d ds)), List.foldl_cons]
      exact ih (acc * 10 + d) (fun x hx => hall x (List.mem_cons_of_mem _ hx))

lemma parseNatDigits_natChars (n : Nat) : parseNatDigits? (natChars n) = some n := by
  rw [natChars]
  by_cases hn : n = 0
  · rw [if_pos hn, hn]
    rfl
  · rw [if_neg hn, parseNatDigits?]
    rw [if_neg ?_]
    · rw [← List.map_reverse,
        parseNatDigitsAux_map _ 0
          (fun d hd => natDigitsAux_lt n n d (List.mem_reverse.1 hd)),
        foldl_reverse_digitsVal, natDigitsAux_val n n (le_refl n)]
    · simp [natDigitsAux_ne_nil n hn]

lemma natChars_ne_nil (n : Nat) : natChars n ≠ [] := by
  rw [natChars]
  split
  · simp
  · next h =>
      simp [natDigitsAux_ne_nil n h]

lemma natChars_digits {n : Nat} : ∀ c ∈ natChars n, ∃ d, d < 10 ∧ c = digitChar d := by
  intro c hc
  rw [natChars] at hc
  split at hc
  · refine ⟨0, by norm_num, ?_⟩
    simpa using hc
  · rw [List.mem_reverse, List.mem_map] at hc
    obtain ⟨d, hd, rfl⟩ := hc
    exact ⟨d, natDigitsAux_lt n n d hd, rfl⟩

lemma digitChar_ne_of_none {d : Nat} (hd : d < 10) {c : Char}
    (hc : charDigit? c = none) : digitChar d ≠ c := by
  intro h
  have hcd := charDigit_digitChar d hd
  rw [h, hc] at hcd
  exact absurd hcd (by simp)

lemma natChars_ne_dash {n : Nat} : ∀ c ∈ natChars n, c ≠ '-' := by
  intro c hc
  obtain ⟨d, hd, rfl⟩ := natChars_digits c hc
  exact digitChar_ne_of_none hd (by rfl)

lemma natChars_ne_plus {n : Nat} : ∀ c ∈ natChars n, c ≠ '+' := by
  intro c hc
  obtain ⟨d, hd, rfl⟩ := natChars_digits c hc
  exact digitChar_ne_of_none hd (by decide)

lemma parseIntRaw_intChars (m : Int) : parseIntRaw? (intChars m) = some m := by
  rw [intChars]
  by_cases hm : m < 0
  · rw [if_pos hm]
    rw [parseIntRaw?, if_pos rfl, parseNatDigits_natChars]
    show some (-(m.natAbs : Int)) = some m
    congr 1
    omega
  · rw [if_neg hm]
    cases hnc : natChars m.natAbs with
    | nil => exact absurd hnc (natChars_ne_nil _)
    | cons c rest =>
        rw [parseIntRaw?, if_neg ?_, if_neg ?_]
        · rw [← hnc, parseNatDigits_natChars]
          show some ((m.natAbs : Int)) = some m
          congr 1
          omega
        · exact natChars_ne_plus c (hnc ▸ List.mem_cons_self c rest)
        · exact natChars_ne_dash c (hnc ▸ List.mem_cons_self c rest)

lemma parseInt_intChars (m : Int) (hm : inInt64 m = true) :
    parseInt? (intChars m) = some m := by
  rw [parseInt?, parseIntRaw_intChars m]
  show (if inInt64 m = true then some m else none) = some m
  rw [if_pos hm]

lemma natChars_numeral (n : Nat) : ∀ c ∈ natChars n, numeralChar c = true := by
  intro c hc
  obtain ⟨d, hd, rfl⟩ := natChars_digits c hc
  simp [numeralChar, charDigit_digitChar d hd]

lemma intChars_numeral (m : Int) : ∀ c ∈ intChars m, numeralChar c = true := by
  intro c hc
  rw [intChars] at hc
  split at hc
  · rcases List.mem_cons.1 hc with rfl | hc
    · decide
    · exact natChars_numeral _ c hc
  · exact natChars_numeral _ c hc

lemma naTokens_discriminated :
    ∀ tok ∈ naTokens, tok = [] ∨ ∃ c ∈ tok, numeralChar c = false := by decide

lemma isNAtext_numeral (cs : Str) (hne : cs ≠ [])
    (h : ∀ c ∈ cs, numeralChar c = true) : isNAtext cs = false := by
  rw [isNAtext, List.contains_eq_any_beq, List.any_eq_false]
  intro tok htok
  simp only [beq_iff_eq]
  intro heq
  subst heq
  rcases naTokens_discriminated _ htok with h0 | ⟨c, hc, hcf⟩
  · exact hne h0
  · rw [h c hc] at hcf
    exact absurd hcf (by simp)

lemma isNAtext_natChars (n : Nat) : isNAtext (natChars n) = false :=
  isNAtext_numeral (natChars n) (natChars_ne_nil n) (natChars_numeral n)

lemma isNAtext_intChars (m : Int) : isNAtext (intChars m) = false := by
  refine isNAtext_numeral (intChars m) ?_ (intChars_numeral m)
  rw [intChars]
  split
  · simp
  · exact natChars_ne_nil _

lemma colParse_intChars (ms : List Int) (hms : ∀ m ∈ ms, inInt64 m = true) :
    colParse (ms.map intChars) = ms.map Cell.i := by
  have hna : ∀ t ∈ ms.map intChars, isNAtext t = false := by
    intro t ht
    rw [List.mem_map] at ht
    obtain ⟨m, _, rfl⟩ := ht
    exact isNAtext_intChars m
  have hanyNA : (ms.map intChars).any isNAtext = false := by
    rw [List.any_eq_false]
    intro t ht
    simp [hna t ht]
  have hall : ((ms.map intChars).filter (fun t => !isNAtext t)).all
      (fun t => (parseInt? t).isSome) = true := by
    rw [List.all_eq_true]
    intro t ht
    have ht' := List.mem_of_mem_filter ht
    rw [List.mem_map] at ht'
    obtain ⟨m, hmem, rfl⟩ := ht'
    simp [parseInt_intChars m (hms m hmem)]
  rw [colParse, if_pos hall, List.map_map]
  refine List.map_congr_left (fun m hmem => ?_)
  simp only [Function.comp_apply, hanyNA, isNAtext_intChars m,
    parseInt_intChars m (hms m hmem)]
  rfl

/-- Big-endian value of a digit list. -/
def digitsValBE (ds : List Nat) : Nat := ds.foldl (fun a d => a * 10 + d) 0

lemma digitsValBE_append (xs ys : List Nat) :
    digitsValBE (xs ++ ys) = digitsValBE xs * 10 ^ ys.length + digitsValBE ys := by
  rw [digitsValBE, List.foldl_append, foldl_digits_acc]
  rfl

lemma digitsValBE_replicate_zero (p : Nat) : digitsValBE (List.replicate p 0) = 0 := by
  induction p with
  | zero => rfl
  | succ p ih =>
      rw [List.replicate_succ, digitsValBE, List.foldl_cons]
      exact ih

lemma parseNatDigits_map (ds : List Nat) (hne : ds ≠ []) (hlt : ∀ d ∈ ds, d < 10) :
    parseNatDigits? (ds.map digitChar) = some (digitsValBE ds) := by
  rw [parseNatDigits?, if_neg (by simp [hne]), parseNatDigitsAux_map ds 0 hlt]
  rfl

lemma natChars_eq_map (n : Nat) :
    ∃ dsN, natChars n = dsN.map digitChar ∧ (∀ d ∈ dsN, d < 10) ∧
      digitsValBE dsN = n ∧ dsN ≠ [] := by
  by_cases hn : n = 0
  · subst hn
    exact ⟨[0], rfl, by norm_num, rfl, by simp⟩
  · refine ⟨(natDigitsAux n n).reverse, ?_, ?_, ?_, ?_⟩
    · rw [natChars, if_neg hn, List.map_reverse]
    · intro d hd
      exact natDigitsAux_lt n n d (List.mem_reverse.1 hd)
    · rw [digitsValBE, foldl_reverse_digitsVal, natDigitsAux_val n n (le_refl n)]
    · simp [natDigitsAux_ne_nil n hn]

lemma takeWhile_dropWhile_split {α : Type} (p : α → Bool) (A : List α) (b : α)
    (B : List α) (hA : ∀ a ∈ A, p a = true) (hb : p b = false) :
    (A ++ b :: B).takeWhile p = A ∧ (A ++ b :: B).dropWhile p = b :: B := by
  induction A with
  | nil => simp [List.takeWhile_cons, List.dropWhile_cons, hb]
  | cons a A ih =>
      have ha := hA a (List.mem_cons_self a A)
      have hrest := ih (fun x hx => hA x (List.mem_cons_of_mem a hx))
      rw [List.cons_append]
      rw [List.takeWhile_cons, List.dropWhile_cons]
      rw [ha]
      simp only [if_true]
      exact ⟨by rw [hrest.1], by rw [hrest.2]⟩

lemma parseNatDigitsAux_none (cs : List Char) (c : Char) (hc : c ∈ cs)
    (hnd : charDigit? c = none) : ∀ acc, parseNatDigitsAux cs acc = none := by
  induction cs with
  | nil => exact absurd hc (List.not_mem_nil c)
  | cons x cs ih =>
      intro acc
      rw [parseNatDigitsAux]
      cases hx : charDigit? x with
      | none => rfl
      | some d =>
          rcases List.mem_cons.1 hc with rfl | hc'
          · rw [hx] at hnd
            exact absurd hnd (by simp)
          · exact ih hc' _

lemma parseNatDigits_none (cs : List Char) (c : Char) (hc : c ∈ cs)
    (hnd : charDigit? c = none) : parseNatDigits? cs = none := by
  rw [parseNatDigits?]
  split
  · rfl
  · exact parseNatDigitsAux_none cs c hc hnd _

lemma decCanonAux_toRat (e : Nat) : ∀ m : Int,
    (decCanonAux m e).toRat = (Dec.mk m e).toRat := by
  induction e with
  | zero => intro m; rfl
  | succ e ih =>
      intro m
      rw [decCanonAux]
      split
      · next h =>
          rw [ih (m / 10)]
          obtain ⟨k, rfl⟩ := Int.dvd_of_emod_eq_zero h
          rw [Int.mul_ediv_cancel_left k (by norm_num)]
          rw [Dec.toRat, Dec.toRat]
          push_cast
          rw [pow_succ]
          field_simp
          ring
      · rfl

lemma decCanon_toRat (d : Dec) : (decCanon d).toRat = d.toRat :=
  decCanonAux_toRat d.e d.m

lemma charDigit_dot : charDigit? '.' = none := by decide

lemma parseDecNonneg_parts (dsA dsB : List Nat)
    (hAlt : ∀ d ∈ dsA, d < 10) (hBlt : ∀ d ∈ dsB, d < 10)
    (hAne : dsA ≠ []) (hBne : dsB ≠ []) :
    parseDecNonneg? (dsA.map digitChar ++ '.' :: dsB.map digitChar) =
      some (decCanon (Dec.mk
        ((digitsValBE dsA * 10 ^ dsB.length + digitsValBE dsB : Nat) : Int)
        dsB.length)) := by
  have hsplit := takeWhile_dropWhile_split (fun c => c ≠ '.')
    (dsA.map digitChar) '.' (dsB.map digitChar)
    (by
      intro a ha
      rw [List.mem_map] at ha
      obtain ⟨d, hd, rfl⟩ := ha
      simp [digitChar_ne_of_none (hAlt d hd) charDigit_dot])
    (by simp)
  rw [parseDecNonneg?]
  simp only [hsplit.1, hsplit.2]
  have hcont : (dsB.map digitChar).contains '.' = false := by
    rw [List.contains_eq_any_beq, List.any_eq_false]
    intro c hc
    rw [List.mem_map] at hc
    obtain ⟨d, hd, rfl⟩ := hc
    simp [(digitChar_ne_of_none (hBlt d hd) charDigit_dot).symm]
  rw [if_neg (by rw [hcont]; simp)]
  rw [if_neg (by simp [hAne])]
  rw [if_neg (by simp [hAne]), if_neg (by simp [hBne])]
  rw [parseNatDigits_map dsA hAne hAlt, parseNatDigits_map dsB hBne hBlt]
  simp only [List.length_map]

lemma Dec_toRat_neg (m : Int) (e : Nat) :
    (Dec.mk (-m) e).toRat = -(Dec.mk m e).toRat := by
  rw [Dec.toRat, Dec.toRat]
  push_cast
  ring

lemma digitsValBE_single_zero : digitsValBE [0] = 0 := rfl

lemma parseDecNonneg_decCharsBody (n e : Nat) :
    ∃ q, parseDecNonneg? (decCharsBody n e) = some q ∧
      q.toRat = (n : ℚ) / (10 : ℚ) ^ e := by
  obtain ⟨ds0, hds0, hlt0, hval0, hne0⟩ := natChars_eq_map n
  have hlen0 : (natChars n).length = ds0.length := by rw [hds0, List.length_map]
  set dsP : List Nat :=
    if (natChars n).length ≤ e then List.replicate (e + 1 - (natChars n).length) 0 ++ ds0
    else ds0 with hdsP
  have hchars : padDigits n e = dsP.map digitChar := by
    rw [padDigits, hdsP]
    split
    · rw [List.map_append, List.map_replicate, hds0]
      rfl
    · exact hds0
  have hltP : ∀ d ∈ dsP, d < 10 := by
    rw [hdsP]
    split
    · intro d hd
      rcases List.mem_append.1 hd with hd | hd
      · rw [List.eq_of_mem_replicate hd]
        norm_num
      · exact hlt0 d hd
    · exact hlt0
  have hvalP : digitsValBE dsP = n := by
    rw [hdsP]
    split
    · rw [digitsValBE_append, digitsValBE_replicate_zero, hval0]
      ring
    · exact hval0
  have hlenP : e < dsP.length := by
    rw [hdsP]
    split
    · next h =>
        rw [List.length_append, List.length_replicate]
        omega
    · next h =>
        omega
  have hPne : dsP ≠ [] := by
    intro h
    rw [h] at hlenP
    simp at hlenP
  by_cases he : e = 0
  · subst he
    rw [decCharsBody, hchars, if_pos rfl]
    have h1 : (dsP.map digitChar).take ((dsP.map digitChar).length - 0) =
        dsP.map digitChar := by
      simp
    rw [h1]
    have hparts := parseDecNonneg_parts dsP [0] hltP (by norm_num) hPne (by simp)
    have hd0 : digitChar 0 = '0' := rfl
    simp only [List.map_cons, List.map_nil, hd0] at hparts
    rw [hparts]
    refine ⟨_, rfl, ?_⟩
    rw [decCanon_toRat, Dec.toRat]
    simp only [digitsValBE_single_zero, List.length_cons, List.length_nil, hvalP]
    push_cast
    ring
  · rw [decCharsBody, hchars, if_neg he]
    rw [List.length_map]
    rw [← List.map_take, ← List.map_drop]
    have htake_len : (dsP.take (dsP.length - e)).length = dsP.length - e := by
      rw [List.length_take]
      omega
    have htake_ne : dsP.take (dsP.length - e) ≠ [] := by
      intro h
      rw [h] at htake_len
      simp at htake_len
      omega
    have hdrop_len : (dsP.drop (dsP.length - e)).length = e := by
      rw [List.length_drop]
      omega
    have hdrop_ne : dsP.drop (dsP.length - e) ≠ [] := by
      intro h
      rw [h] at hdrop_len
      simp at hdrop_len
      omega
    have hparts := parseDecNonneg_parts (dsP.take (dsP.length - e))
      (dsP.drop (dsP.length - e))
      (fun d hd => hltP d (List.take_subset _ _ hd))
      (fun d hd => hltP d (List.drop_subset _ _ hd)) htake_ne hdrop_ne
    rw [hparts]
    refine ⟨_, rfl, ?_⟩
    rw [decCanon_toRat, Dec.toRat]
    have hval : digitsValBE (dsP.take (dsP.length - e)) *
        10 ^ (dsP.drop (dsP.length - e)).length +
        digitsValBE (dsP.drop (dsP.length - e)) = n := by
      rw [← digitsValBE_append, List.take_append_drop, hvalP]
    rw [hdrop_len] at hval
    simp only [hdrop_len, hval]
    push_cast
    ring

lemma padDigits_length (n e : Nat) : e < (padDigits n e).length := by
  rw [padDigits]
  split
  · next h =>
      rw [List.length_append, List.length_replicate]
      omega
  · next h =>
      omega

lemma padDigits_digits (n e : Nat) : ∀ c ∈ padDigits n e, ∃ d, d < 10 ∧ c = digitChar d := by
  intro c hc
  rw [padDigits] at hc
  split at hc
  · rcases List.mem_append.1 hc with hc | hc
    · exact ⟨0, by norm_num, by rw [List.eq_of_mem_replicate hc]; rfl⟩
    · exact natChars_digits c hc
  · exact natChars_digits c hc

lemma decCharsBody_head (n e : Nat) :
    ∃ c rest, decCharsBody n e = c :: rest ∧ c ≠ '-' ∧ c ≠ '+' := by
  rw [decCharsBody]
  cases htake : (padDigits n e).take ((padDigits n e).length - e) with
  | nil =>
      have hlen := padDigits_length n e
      have : ((padDigits n e).take ((padDigits n e).length - e)).length =
          (padDigits n e).length - e := by
        rw [List.length_take]
        omega
      rw [htake] at this
      simp at this
      omega
  | cons c rest =>
      refine ⟨c, _, by rw [List.cons_append], ?_, ?_⟩
      all_goals
        have hc : c ∈ padDigits n e :=
          List.take_subset _ _ (htake ▸ List.mem_cons_self c rest)
        obtain ⟨d, hd, rfl⟩ := padDigits_digits n e c hc
        exact digitChar_ne_of_none hd (by decide)

lemma parseSignedMant_decChars (p : Dec) :
    ∃ q, parseSignedMant? (decChars p) = some q ∧ q.toRat = p.toRat := by
  obtain ⟨q, hq, hqval⟩ := parseDecNonneg_decCharsBody p.m.natAbs p.e
  rw [decChars]
  have habs : ((p.m.natAbs : ℚ)) = |(p.m : ℚ)| := by
    simp [Int.cast_natAbs]
  by_cases hm : p.m < 0
  · rw [if_pos hm, List.singleton_append, parseSignedMant?, if_pos rfl, hq]
    refine ⟨_, rfl, ?_⟩
    show (Dec.mk (-q.m) q.e).toRat = p.toRat
    rw [Dec_toRat_neg q.m q.e]
    rw [show Dec.mk q.m q.e = q from rfl, hqval, Dec.toRat, habs]
    rw [abs_of_neg (by exact_mod_cast hm)]
    ring
  · rw [if_neg hm, List.nil_append]
    obtain ⟨c, rest, hcr, hcd, _⟩ := decCharsBody_head p.m.natAbs p.e
    rw [hcr, parseSignedMant?, if_neg hcd, ← hcr, hq]
    refine ⟨_, rfl, ?_⟩
    rw [hqval, Dec.toRat, habs, abs_of_nonneg (by exact_mod_cast not_lt.1 hm)]

lemma decCharsBody_numeral (n e : Nat) :
    ∀ c ∈ decCharsBody n e, numeralChar c = true := by
  intro c hc
  rw [decCharsBody] at hc
  rcases List.mem_append.1 hc with hc | hc
  · obtain ⟨d, hd, rfl⟩ := padDigits_digits n e c (List.take_subset _ _ hc)
    simp [numeralChar, charDigit_digitChar d hd]
  · rcases List.mem_cons.1 hc with rfl | hc
    · decide
    · by_cases he : e = 0
      · rw [if_pos he, List.mem_singleton] at hc
        subst hc
        decide
      · rw [if_neg he] at hc
        obtain ⟨d, hd, rfl⟩ := padDigits_digits n e c (List.drop_subset _ _ hc)
        simp [numeralChar, charDigit_digitChar d hd]

lemma decChars_numeral (p : Dec) : ∀ c ∈ decChars p, numeralChar c = true := by
  intro c hc
  rw [decChars] at hc
  rcases List.mem_append.1 hc with hc | hc
  · split at hc
    · rw [List.mem_singleton] at hc
      subst hc
      decide
    · exact absurd hc (List.not_mem_nil c)
  · exact decCharsBody_numeral _ _ c hc

lemma decChars_ne_nil (p : Dec) : decChars p ≠ [] := by
  obtain ⟨c, rest, hcr, _, _⟩ := decCharsBody_head p.m.natAbs p.e
  rw [decChars, hcr]
  split <;> simp

lemma isExpChar_eq (c : Char) (h : isExpChar c = true) : c = 'e' ∨ c = 'E' := by
  simpa [isExpChar] using h

lemma numeral_no_exp (cs : Str) (h : ∀ c ∈ cs, numeralChar c = true) :
    cs.any isExpChar = false := by
  rw [List.any_eq_false]
  intro c hc habs
  rcases isExpChar_eq c habs with rfl | rfl
  · exact absurd (h _ hc) (by decide)
  · exact absurd (h _ hc) (by decide)

lemma parseDec_decChars (p : Dec) :
    ∃ q, parseDec? (decChars p) = some q ∧ q.toRat = p.toRat := by
  obtain ⟨q, hq, hqval⟩ := parseSignedMant_decChars p
  refine ⟨q, ?_, hqval⟩
  rw [parseDec?, if_neg (by rw [numeral_no_exp (decChars p) (decChars_numeral p)]; simp)]
  exact hq

lemma isNAtext_decChars (p : Dec) : isNAtext (decChars p) = false :=
  isNAtext_numeral (decChars p) (decChars_ne_nil p) (decChars_numeral p)

lemma parseIntRaw_decChars (p : Dec) : parseIntRaw? (decChars p) = none := by
  have hdot : ('.' : Char) ∈ decCharsBody p.m.natAbs p.e := by
    rw [decCharsBody]
    exact List.mem_append.2 (Or.inr (List.mem_cons_self _ _))
  rw [decChars]
  by_cases hm : p.m < 0
  · rw [if_pos hm, List.singleton_append, parseIntRaw?, if_pos rfl,
      parseNatDigits_none _ '.' hdot (by decide)]
    rfl
  · rw [if_neg hm, List.nil_append]
    obtain ⟨c, rest, hcr, hcd, hcp⟩ := decCharsBody_head p.m.natAbs p.e
    rw [hcr, parseIntRaw?, if_neg hcd, if_neg hcp, ← hcr,
      parseNatDigits_none _ '.' hdot (by decide)]
    rfl

lemma parseInt_decChars (p : Dec) : parseInt? (decChars p) = none := by
  rw [parseInt?, parseIntRaw_decChars p]
  rfl

lemma colParse_decChars (ps : List Dec) :
    colParse (ps.map decChars) =
      ps.map (fun p => Cell.f ((parseDec? (decChars p)).getD (Dec.mk 0 0))) := by
  cases ps with
  | nil => rfl
  | cons p0 ps' =>
      have hna : ∀ t ∈ (p0 :: ps').map decChars, isNAtext t = false := by
        intro t ht
        rw [List.mem_map] at ht
        obtain ⟨p, _, rfl⟩ := ht
        exact isNAtext_decChars p
      have hfilterall : (((p0 :: ps').map decChars).filter (fun t => !isNAtext t)) =
          (p0 :: ps').map decChars :=
        List.filter_eq_self.2 (fun t ht => by simp [hna t ht])
      have hint : ((((p0 :: ps').map decChars).filter (fun t => !isNAtext t)).all
          (fun t => (parseInt? t).isSome)) = false := by
        rw [hfilterall, List.map_cons, List.all_cons, parseInt_decChars p0]
        rfl
      have hflt : ((((p0 :: ps').map decChars).filter (fun t => !isNAtext t)).all
          (fun t => (parseDec? t).isSome)) = true := by
        rw [hfilterall, List.all_eq_true]
        intro t ht
        rw [List.mem_map] at ht
        obtain ⟨p, _, rfl⟩ := ht
        obtain ⟨q, hq, _⟩ := parseDec_decChars p
        simp [hq]
      rw [colParse, if_neg (by rw [hint]; simp), if_pos hflt, List.map_map]
      refine List.map_congr_left (fun p _ => ?_)
      obtain ⟨q, hq, _⟩ := parseDec_decChars p
      simp only [Function.comp_apply, isNAtext_decChars p, hq]
      rfl

lemma colParse_length (texts : List Str) : (colParse texts).length = texts.length := by
  rw [colParse]
  split
  · rw [List.length_map]
  · split
    · rw [List.length_map]
    · split
      · rw [List.length_map]
      · rw [List.length_map]

lemma truncDec_int (m : Int) : truncDec (Dec.mk m 0) = m := by
  rw [truncDec]
  simp only [pow_zero, Nat.div_one]
  split
  · next h => omega
  · next h => omega

lemma range_map_getD {α β : Type} (l : List α) (d : α) (f : α → β) :
    (List.range l.length).map (fun i => f (l.getD i d)) = l.map f := by
  induction l with
  | nil => rfl
  | cons a l ih =>
      rw [List.length_cons, List.range_succ_eq_map, List.map_cons, List.map_map]
      have h1 : (fun i => f ((a :: l).getD i d)) ∘ Nat.succ =
          fun i => f (l.getD i d) := rfl
      rw [h1, ih]
      rfl

lemma range_map_const {β : Type} (n : Nat) (c : β) :
    (List.range n).map (fun _ => c) = List.replicate n c := by
  induction n with
  | zero => rfl
  | succ n ih =>
      rw [List.range_succ, List.map_append, ih, List.map_cons, List.map_nil,
        List.replicate_succ']

lemma range_map_getD' {α β : Type} (l : List α) (d : α) (f : α → β) (n : Nat)
    (h : l.length = n) :
    (List.range n).map (fun i => f (l.getD i d)) = l.map f := by
  subst h
  exact range_map_getD l d f

lemma range_map_pair {α β γ : Type} (l1 l2 : List α) (d : α) (f : α → β)
    (g : α → γ) (n : Nat) (h1 : l1.length = n) (h2 : l2.length = n) :
    (List.range n).map (fun i => (f (l1.getD i d), g (l2.getD i d))) =
      (l1.map f).zip (l2.map g) := by
  rw [← range_map_getD' l1 d f n h1, ← range_map_getD' l2 d g n h2, List.zip_map']

lemma numericish_parts (c : Char) (h : numericishChar c = false) :
    charDigit? c = none ∧ c ≠ '-' ∧ c ≠ '+' ∧ c ≠ '.' ∧ isExpChar c = false := by
  simp only [numericishChar, Bool.or_eq_false_iff, decide_eq_false_iff_not] at h
  refine ⟨?_, h.1.1.1.2, h.1.1.2, h.1.2, h.2⟩
  cases hd : charDigit? c with
  | none => rfl
  | some d => rw [hd] at h; exact absurd h.1.1.1.1 (by simp)

lemma parseIntRaw_none (cs : Str) (c : Char) (hc : c ∈ cs)
    (h : numericishChar c = false) : parseIntRaw? cs = none := by
  obtain ⟨hdig, hdash, hplus, _, _⟩ := numericish_parts c h
  cases cs with
  | nil => rfl
  | cons c0 rest =>
      rw [parseIntRaw?]
      rcases List.mem_cons.1 hc with rfl | hcr
      · rw [if_neg hdash, if_neg hplus,
          parseNatDigits_none _ c (List.mem_cons_self c rest) hdig]
        rfl
      · by_cases h0 : c0 = '-'
        · rw [if_pos h0, parseNatDigits_none _ c hcr hdig]
          rfl
        · rw [if_neg h0]
          by_cases h1 : c0 = '+'
          · rw [if_pos h1, parseNatDigits_none _ c hcr hdig]
            rfl
          · rw [if_neg h1,
              parseNatDigits_none _ c (List.mem_cons_of_mem c0 hcr) hdig]
            rfl

lemma parseInt_none (cs : Str) (c : Char) (hc : c ∈ cs)
    (h : numericishChar c = false) : parseInt? cs = none := by
  rw [parseInt?, parseIntRaw_none cs c hc h]
  rfl

lemma dropWhile_head_false {α : Type} (p : α → Bool) (l : List α) (a : α)
    (t : List α) (h : l.dropWhile p = a :: t) : p a = false := by
  induction l with
  | nil => simp at h
  | cons x l ih =>
      rw [List.dropWhile_cons] at h
      split at h
      · exact ih h
      · next hx =>
          cases h
          exact Bool.eq_false_iff.2 hx

lemma parseDecNonneg_none (cs : Str) (c : Char) (hc : c ∈ cs)
    (hdig : charDigit? c = none) (hdot : c ≠ '.') :
    parseDecNonneg? cs = none := by
  rw [parseDecNonneg?]
  cases hrest : cs.dropWhile (fun x => x ≠ '.') with
  | nil =>
      have htake : cs.takeWhile (fun x => x ≠ '.') = cs := by
        have h1 := List.takeWhile_append_dropWhile (fun x : Char => decide (x ≠ '.')) cs
        rw [hrest, List.append_nil] at h1
        exact h1
      simp only [hrest, htake]
      rw [parseNatDigits_none cs c hc hdig]
      rfl
  | cons r0 frac =>
      have hr0 : r0 = '.' := by
        have := dropWhile_head_false _ cs r0 frac hrest
        simpa using this
      have hcc : c ∈ cs.takeWhile (fun x : Char => decide (x ≠ '.')) ∨ c ∈ frac := by
        have h1 := List.takeWhile_append_dropWhile (fun x : Char => decide (x ≠ '.')) cs
        rw [hrest] at h1
        rcases List.mem_append.1 (h1 ▸ hc) with h2 | h2
        · exact Or.inl h2
        · rcases List.mem_cons.1 h2 with rfl | h3
          · exact absurd hr0 hdot
          · exact Or.inr h3
      simp only [hrest]
      by_cases hcont : frac.contains '.' = true
      · rw [if_pos hcont]
      · rw [if_neg hcont]
        rcases hcc with hcc | hcc
        · have hne : (cs.takeWhile (fun x : Char => decide (x ≠ '.'))).isEmpty = false := by
            cases he : cs.takeWhile (fun x : Char => decide (x ≠ '.')) with
            | nil => rw [he] at hcc; exact absurd hcc (List.not_mem_nil c)
            | cons a t => rfl
          rw [if_neg (by rw [hne]; simp)]
          have h1 : (if (cs.takeWhile (fun x : Char => decide (x ≠ '.'))).isEmpty = true
              then some 0
              else parseNatDigits? (cs.takeWhile (fun x : Char => decide (x ≠ '.')))) =
              none := by
            rw [if_neg (by rw [hne]; simp)]
            exact parseNatDigits_none _ c hcc hdig
          rw [h1]
        · have hne : frac.isEmpty = false := by
            cases he : frac with
            | nil => rw [he] at hcc; exact absurd hcc (List.not_mem_nil c)
            | cons a t => rfl
          rw [if_neg (by rw [hne]; simp)]
          have h2 : (if frac.isEmpty = true then some 0 else parseNatDigits? frac) = none := by
            rw [if_neg (by rw [hne]; simp)]
            exact parseNatDigits_none _ c hcc hdig
          rw [h2]
          cases hfst : (if (cs.takeWhile (fun x : Char => decide (x ≠ '.'))).isEmpty = true
            then some 0 else parseNatDigits? (cs.takeWhile (fun x : Char => decide (x ≠ '.')))) <;> rfl

lemma parseSignedMant_none (cs : Str) (c : Char) (hc : c ∈ cs)
    (hdig : charDigit? c = none) (hdot : c ≠ '.') (hdash : c ≠ '-') :
    parseSignedMant? cs = none := by
  cases cs with
  | nil => rfl
  | cons c0 rest =>
      rw [parseSignedMant?]
      by_cases h0 : c0 = '-'
      · rw [if_pos h0]
        rcases List.mem_cons.1 hc with rfl | hcr
        · exact absurd h0 hdash
        · rw [parseDecNonneg_none rest c hcr hdig hdot]
          rfl
      · rw [if_neg h0, parseDecNonneg_none _ c hc hdig hdot]

lemma parseDec_none (cs : Str) (c : Char) (hc : c ∈ cs)
    (h : numericishChar c = false) : parseDec? cs = none := by
  obtain ⟨hdig, hdash, hplus, hdot, hexp⟩ := numericish_parts c h
  rw [parseDec?]
  by_cases hany : cs.any isExpChar = true
  · rw [if_pos hany]
    have hsp := List.takeWhile_append_dropWhile (fun x : Char => !isExpChar x) cs
    rcases List.mem_append.1 (hsp ▸ hc) with htw | hdw
    · rw [parseSignedMant_none _ c htw hdig hdot hdash]
      rfl
    · cases hdrop : cs.dropWhile (fun x : Char => !isExpChar x) with
      | nil => rw [hdrop] at hdw; exact absurd hdw (List.not_mem_nil c)
      | cons d0 tail =>
          have hd0 : isExpChar d0 = true := by
            have := dropWhile_head_false _ cs d0 tail hdrop
            simpa using this
          rw [hdrop] at hdw
          rcases List.mem_cons.1 hdw with rfl | htail
          · rw [hd0] at hexp
            exact absurd hexp (by simp)
          · simp only [List.drop_succ_cons, List.drop_zero,
              parseIntRaw_none tail c htail h, Option.map_none']
            cases hm : parseSignedMant? (cs.takeWhile (fun x : Char => !isExpChar x)) <;> rfl
  · rw [if_neg hany]
    exact parseSignedMant_none cs c hc hdig hdot hdash

lemma csvPlain_parts (s : Str) (h : csvPlainStr s = true) :
    s ≠ [] ∧ stripStr s = s ∧ s ∉ specialTokens ∧
      ∃ c ∈ s, numericishChar c = false := by
  simp only [csvPlainStr, Bool.and_eq_true, Bool.not_eq_true', beq_iff_eq,
    List.any_eq_true, Bool.not_eq_true] at h
  obtain ⟨⟨⟨h1, h2⟩, h3⟩, c, hc, hc2⟩ := h
  refine ⟨by simpa using h1, h2, ?_, c, hc, hc2⟩
  intro hmem
  rw [List.contains_eq_any_beq, List.any_eq_false] at h3
  exact absurd (by simp) (h3 s hmem)

lemma contains_eq_false_of_not_mem {l : List Str} {s : Str} (h : s ∉ l) :
    l.contains s = false := by
  rw [List.contains_eq_any_beq, List.any_eq_false]
  intro t ht
  simp only [beq_iff_eq]
  intro heq
  exact h (heq ▸ ht)

lemma csvPlain_isNAtext (s : Str) (h : csvPlainStr s = true) :
    isNAtext s = false := by
  obtain ⟨_, _, hmem, _⟩ := csvPlain_parts s h
  rw [isNAtext]
  refine contains_eq_false_of_not_mem (fun hs => hmem ?_)
  rw [specialTokens]
  exact List.mem_append.2 (Or.inl (List.mem_append.2 (Or.inl hs)))

lemma csvPlain_not_bool (s : Str) (h : csvPlainStr s = true) :
    boolTokens.contains s = false := by
  obtain ⟨_, _, hmem, _⟩ := csvPlain_parts s h
  refine contains_eq_false_of_not_mem (fun hs => hmem ?_)
  rw [specialTokens]
  exact List.mem_append.2 (Or.inl (List.mem_append.2 (Or.inr hs)))

lemma colParse_plain (vs : List Str) (h : ∀ s ∈ vs, csvPlainStr s = true) :
    colParse vs = vs.map Cell.s := by
  cases vs with
  | nil => rfl
  | cons v0 vs' =>
      obtain ⟨_, _, _, c0, hc0mem, hc0⟩ :=
        csvPlain_parts v0 (h v0 (List.mem_cons_self v0 vs'))
      have hna : ∀ t ∈ v0 :: vs', isNAtext t = false :=
        fun t ht => csvPlain_isNAtext t (h t ht)
      have hfilter : ((v0 :: vs').filter (fun t => !isNAtext t)) = v0 :: vs' :=
        List.filter_eq_self.2 (fun t ht => by simp [hna t ht])
      have hint : ((v0 :: vs').filter (fun t => !isNAtext t)).all
          (fun t => (parseInt? t).isSome) = false := by
        rw [hfilter, List.all_cons, parseInt_none v0 c0 hc0mem hc0]
        rfl
      have hflt : ((v0 :: vs').filter (fun t => !isNAtext t)).all
          (fun t => (parseDec? t).isSome) = false := by
        rw [hfilter, List.all_cons, parseDec_none v0 c0 hc0mem hc0]
        rfl
      have hbool : ((v0 :: vs').filter (fun t => !isNAtext t)).all
          (fun t => boolTokens.contains t) = false := by
        rw [hfilter, List.all_cons,
          csvPlain_not_bool v0 (h v0 (List.mem_cons_self v0 vs'))]
        rfl
      rw [colParse, if_neg (by rw [hint]; simp), if_neg (by rw [hflt]; simp),
        if_neg (by rw [hbool]; simp)]
      refine List.map_congr_left (fun t ht => ?_)
      simp [hna t ht]

lemma colRoundtripStrs_plain (vs : List Str) (h : ∀ s ∈ vs, csvPlainStr s = true) :
    colRoundtripStrs vs = vs := by
  rw [colRoundtripStrs, colParse_plain vs h, List.map_map]
  have h2 : vs.map ((fun c => stripStr (cellToStr c)) ∘ Cell.s) = vs.map id :=
    List.map_congr_left (fun t ht => (csvPlain_parts t (h t ht)).2.1)
  rw [h2, List.map_id]

/-- A one-row catalog whose product_number is the string "007". -/
def leadingZeroDF : CatalogDF :=
  CatalogDF.mk 1 (some [Cell.s (str "Widget")]) (some [Cell.s (str "007")])
    none none none none none

/-- C8 counterexample: writing a catalog whose product_number is "007" and
re-reading it yields product_number "7" — CSV type inference parses the
all-numeric column as integers — so the (item, product_number) pairs of the
round trip are NOT identical to the original ones. -/
theorem C8_roundtrip_counterexample :
    (read_catalog (write_catalog leadingZeroDF)).map
        (fun r => (r.item, r.product_number)) = [(str "Widget", str "7")] ∧
    ¬ ((read_catalog (write_catalog leadingZeroDF)).map
        (fun r => (r.item, r.product_number)) = [(str "Widget", str "007")]) := by
  decide

/-- C8 amended: the catalog round trip preserves the (item, product_number)
pairs and the numeric multiplier / items_per_order / current_qty / price
values (with the documented defaults 1/1/0/0 for absent optional columns)
PROVIDED the item and product_number entries are plain CSV strings
(nonempty, strip-fixed, not NA / boolean / infinity tokens, and containing
a character that cannot occur in a numeric token — excluding the strings
CSV type inference mangles, such as "007", "1e5", "TRUE" or "#N/A") and
the integer columns lie in the int64 range (beyond it pandas falls back
to float64 and loses the exact values). -/
theorem C8_roundtrip_amended (n : Nat) (items pns : List Str)
    (mults ipos cqs sos : Option (List Int)) (prices : Option (List Dec))
    (df : CatalogDF)
    (hdf : df = CatalogDF.mk n (some (items.map Cell.s)) (some (pns.map Cell.s))
      (mults.map (List.map Cell.i)) (ipos.map (List.map Cell.i))
      (cqs.map (List.map Cell.i)) (sos.map (List.map Cell.i))
      (prices.map (List.map Cell.f)))
    (hitems : items.length = n) (hpns : pns.length = n)
    (hm : ∀ ms, mults = some ms → ms.length = n)
    (hi : ∀ ms, ipos = some ms → ms.length = n)
    (hc : ∀ ms, cqs = some ms → ms.length = n)
    (hp : ∀ ps, prices = some ps → ps.length = n)
    (hm64 : ∀ ms, mults = some ms → ∀ m ∈ ms, inInt64 m = true)
    (hi64 : ∀ ms, ipos = some ms → ∀ m ∈ ms, inInt64 m = true)
    (hc64 : ∀ ms, cqs = some ms → ∀ m ∈ ms, inInt64 m = true)
    (hs64 : ∀ ms, sos = some ms → ∀ m ∈ ms, inInt64 m = true)
    (hri : ∀ s ∈ items, csvPlainStr s = true)
    (hrp : ∀ s ∈ pns, csvPlainStr s = true) :
    ((read_catalog (write_catalog df)).map
        (fun r => (r.item, r.product_number)) = items.zip pns) ∧
    ((read_catalog (write_catalog df)).map CatalogRecord.multiplier =
        mults.getD (List.replicate n 1)) ∧
    ((read_catalog (write_catalog df)).map CatalogRecord.items_per_order =
        ipos.getD (List.replicate n 1)) ∧
    ((read_catalog (write_catalog df)).map CatalogRecord.current_qty =
        cqs.getD (List.replicate n 0)) ∧
    ((read_catalog (write_catalog df)).map (fun r => r.price.toRat) =
        (prices.getD (List.replicate n (Dec.mk 0 0))).map Dec.toRat) := by
  subst hdf
  by_cases hn : n = 0
  · subst hn
    have hrc : read_catalog (write_catalog (CatalogDF.mk 0 (some (items.map Cell.s))
        (some (pns.map Cell.s)) (mults.map (List.map Cell.i))
        (ipos.map (List.map Cell.i)) (cqs.map (List.map Cell.i))
        (sos.map (List.map Cell.i)) (prices.map (List.map Cell.f)))) = [] := rfl
    rw [hrc]
    have hitems0 : items = [] := List.length_eq_zero.1 hitems
    have hpns0 : pns = [] := List.length_eq_zero.1 hpns
    refine ⟨by simp [hitems0, hpns0], ?_, ?_, ?_, ?_⟩
    · cases hcase : mults with
      | none => simp
      | some ms => simp [List.length_eq_zero.1 (hm ms hcase)]
    · cases hcase : ipos with
      | none => simp
      | some ms => simp [List.length_eq_zero.1 (hi ms hcase)]
    · cases hcase : cqs with
      | none => simp
      | some ms => simp [List.length_eq_zero.1 (hc ms hcase)]
    · cases hcase : prices with
      | none => simp
      | some ps => simp [List.length_eq_zero.1 (hp ps hcase)]
  · have htext : write_catalog (CatalogDF.mk n (some (items.map Cell.s))
        (some (pns.map Cell.s)) (mults.map (List.map Cell.i))
        (ipos.map (List.map Cell.i)) (cqs.map (List.map Cell.i))
        (sos.map (List.map Cell.i)) (prices.map (List.map Cell.f))) =
        CsvFile.mk n (some items) (some pns)
          (mults.map (fun ms => ms.map intChars))
          (ipos.map (fun ms => ms.map intChars))
          (cqs.map (fun ms => ms.map intChars))
          (sos.map (fun ms => ms.map intChars))
          (prices.map (fun ps => ps.map decChars)) := by
      rw [write_catalog]
      congr 1
      · show some ((items.map Cell.s).map cellText) = some items
        rw [List.map_map]
        show some (items.map id) = some items
        rw [List.map_id]
      · show some ((pns.map Cell.s).map cellText) = some pns
        rw [List.map_map]
        show some (pns.map id) = some pns
        rw [List.map_id]
      · cases mults with
        | none => rfl
        | some ms =>
            show some ((ms.map Cell.i).map cellText) = some (ms.map intChars)
            rw [List.map_map]
            rfl
      · cases ipos with
        | none => rfl
        | some ms =>
            show some ((ms.map Cell.i).map cellText) = some (ms.map intChars)
            rw [List.map_map]
            rfl
      · cases cqs with
        | none => rfl
        | some ms =>
            show some ((ms.map Cell.i).map cellText) = some (ms.map intChars)
            rw [List.map_map]
            rfl
      · cases sos with
        | none => rfl
        | some ms =>
            show some ((ms.map Cell.i).map cellText) = some (ms.map intChars)
            rw [List.map_map]
            rfl
      · cases prices with
        | none => rfl
        | some ps =>
            show some ((ps.map Cell.f).map cellText) = some (ps.map decChars)
            rw [List.map_map]
            rfl
    have hparse : parseCsv (write_catalog (CatalogDF.mk n (some (items.map Cell.s))
        (some (pns.map Cell.s)) (mults.map (List.map Cell.i))
        (ipos.map (List.map Cell.i)) (cqs.map (List.map Cell.i))
        (sos.map (List.map Cell.i)) (prices.map (List.map Cell.f)))) =
        CatalogDF.mk n (some (colParse items)) (some (colParse pns))
          (mults.map (fun ms => ms.map Cell.i))
          (ipos.map (fun ms => ms.map Cell.i))
          (cqs.map (fun ms => ms.map Cell.i))
          (sos.map (fun ms => ms.map Cell.i))
          (prices.map (fun ps =>
            ps.map (fun p => Cell.f ((parseDec? (decChars p)).getD (Dec.mk 0 0))))) := by
      rw [htext, parseCsv]
      congr 1
      · cases hmc : mults with
        | none => rfl
        | some ms =>
            show some (colParse (ms.map intChars)) = some (ms.map Cell.i)
            rw [colParse_intChars ms (hm64 ms hmc)]
      · cases hic : ipos with
        | none => rfl
        | some ms =>
            show some (colParse (ms.map intChars)) = some (ms.map Cell.i)
            rw [colParse_intChars ms (hi64 ms hic)]
      · cases hcc : cqs with
        | none => rfl
        | some ms =>
            show some (colParse (ms.map intChars)) = some (ms.map Cell.i)
            rw [colParse_intChars ms (hc64 ms hcc)]
      · cases hsc : sos with
        | none => rfl
        | some ms =>
            show some (colParse (ms.map intChars)) = some (ms.map Cell.i)
            rw [colParse_intChars ms (hs64 ms hsc)]
      · cases prices with
        | none => rfl
        | some ps =>
            show some (colParse (ps.map decChars)) =
              some (ps.map (fun p => Cell.f ((parseDec? (decChars p)).getD (Dec.mk 0 0))))
            rw [colParse_decChars ps]
    rw [read_catalog, hparse, read_catalog_df]
    rw [if_neg (by simp [hn])]
    have hlen1 : (colParse items).length = n := by rw [colParse_length]; exact hitems
    have hlen2 : (colParse pns).length = n := by rw [colParse_length]; exact hpns
    refine ⟨?_, ?_, ?_, ?_, ?_⟩
    · rw [List.map_map]
      have := range_map_pair (colParse items) (colParse pns) Cell.na
        (fun c => stripStr (cellToStr c)) (fun c => stripStr (cellToStr c)) n hlen1 hlen2
      rw [show ((fun r => (r.item, r.product_number)) ∘ fun i =>
          CatalogRecord.mk
            (stripStr (cellToStr (colCell (some (colParse items)) i)))
            (stripStr (cellToStr (colCell (some (colParse pns)) i)))
            (truncDec ((toNumeric? (colCell (mults.map (fun ms => ms.map Cell.i)) i)).getD (Dec.mk 1 0)))
            (truncDec ((toNumeric? (colCell (ipos.map (fun ms => ms.map Cell.i)) i)).getD (Dec.mk 1 0)))
            (truncDec ((toNumeric? (colCell (cqs.map (fun ms => ms.map Cell.i)) i)).getD (Dec.mk 0 0)))
            (match toNumeric? (colCell (sos.map (fun ms => ms.map Cell.i)) i) with
              | some d => truncDec d
              | none => (i : Int))
            ((toNumeric? (colCell (prices.map (fun ps =>
              ps.map (fun p => Cell.f ((parseDec? (decChars p)).getD (Dec.mk 0 0))))) i)).getD (Dec.mk 0 0))) =
          fun i => (stripStr (cellToStr ((colParse items).getD i Cell.na)),
            stripStr (cellToStr ((colParse pns).getD i Cell.na))) from rfl]
      rw [this]
      rw [show (colParse items).map (fun c => stripStr (cellToStr c)) = items from
          colRoundtripStrs_plain items hri,
        show (colParse pns).map (fun c => stripStr (cellToStr c)) = pns from
          colRoundtripStrs_plain pns hrp]
    · rw [List.map_map]
      cases hcase : mults with
      | none =>
          show (List.range n).map (fun _ => truncDec (Dec.mk 1 0)) =
            List.replicate n 1
          rw [truncDec_int 1]
          exact range_map_const n 1
      | some ms =>
          have hlen : (ms.map Cell.i).length = n := by
            rw [List.length_map]
            exact hm ms hcase
          show (List.range n).map (fun i =>
              truncDec ((toNumeric? ((ms.map Cell.i).getD i Cell.na)).getD (Dec.mk 1 0))) = ms
          rw [range_map_getD' (ms.map Cell.i) Cell.na
            (fun c => truncDec ((toNumeric? c).getD (Dec.mk 1 0))) n hlen, List.map_map]
          have h2 : ms.map ((fun c => truncDec ((toNumeric? c).getD (Dec.mk 1 0))) ∘ Cell.i) =
              ms.map id := List.map_congr_left (fun m _ => truncDec_int m)
          rw [h2, List.map_id]
    · rw [List.map_map]
      cases hcase : ipos with
      | none =>
          show (List.range n).map (fun _ => truncDec (Dec.mk 1 0)) =
            List.replicate n 1
          rw [truncDec_int 1]
          exact range_map_const n 1
      | some ms =>
          have hlen : (ms.map Cell.i).length = n := by
            rw [List.length_map]
            exact hi ms hcase
          show (List.range n).map (fun i =>
              truncDec ((toNumeric? ((ms.map Cell.i).getD i Cell.na)).getD (Dec.mk 1 0))) = ms
          rw [range_map_getD' (ms.map Cell.i) Cell.na
            (fun c => truncDec ((toNumeric? c).getD (Dec.mk 1 0))) n hlen, List.map_map]
          have h2 : ms.map ((fun c => truncDec ((toNumeric? c).getD (Dec.mk 1 0))) ∘ Cell.i) =
              ms.map id := List.map_congr_left (fun m _ => truncDec_int m)
          rw [h2, List.map_id]
    · rw [List.map_map]
      cases hcase : cqs with
      | none =>
          show (List.range n).map (fun _ => truncDec (Dec.mk 0 0)) =
            List.replicate n 0
          rw [truncDec_int 0]
          exact range_map_const n 0
      | some ms =>
          have hlen : (ms.map Cell.i).length = n := by
            rw [List.length_map]
            exact hc ms hcase
          show (List.range n).map (fun i =>
              truncDec ((toNumeric? ((ms.map Cell.i).getD i Cell.na)).getD (Dec.mk 0 0))) = ms
          rw [range_map_getD' (ms.map Cell.i) Cell.na
            (fun c => truncDec ((toNumeric? c).getD (Dec.mk 0 0))) n hlen, List.map_map]
          have h2 : ms.map ((fun c => truncDec ((toNumeric? c).getD (Dec.mk 0 0))) ∘ Cell.i) =
              ms.map id := List.map_congr_left (fun m _ => truncDec_int m)
          rw [h2, List.map_id]
    · rw [List.map_map]
      cases hcase : prices with
      | none =>
          show (List.range n).map (fun _ => (Dec.mk 0 0).toRat) =
            (List.replicate n (Dec.mk 0 0)).map Dec.toRat
          rw [List.map_replicate]
          exact range_map_const n _
      | some ps =>
          have hlen : (ps.map (fun p =>
              Cell.f ((parseDec? (decChars p)).getD (Dec.mk 0 0)))).length = n := by
            rw [List.length_map]
            exact hp ps hcase
          show (List.range n).map (fun i =>
              ((toNumeric? ((ps.map (fun p =>
                Cell.f ((parseDec? (decChars p)).getD (Dec.mk 0 0)))).getD i Cell.na)).getD
                  (Dec.mk 0 0)).toRat) = ps.map Dec.toRat
          rw [range_map_getD' _ Cell.na
            (fun c => ((toNumeric? c).getD (Dec.mk 0 0)).toRat) n hlen, List.map_map]
          refine List.map_congr_left (fun p _ => ?_)
          obtain ⟨q, hq, hval⟩ := parseDec_decChars p
          show ((parseDec? (decChars p)).getD (Dec.mk 0 0)).toRat = p.toRat
          rw [hq]
          exact hval

/-- Concrete instantiation of the amended round trip: a plain-string catalog
row with an int64-range multiplier 2 and price 2.5 survives the round trip. -/
theorem C8_roundtrip_amended_witness :
    (read_catalog (write_catalog (CatalogDF.mk 1 (some [Cell.s (str "Widget")])
        (some [Cell.s (str "A1")]) (some [Cell.i 2]) none none none
        (some [Cell.f (Dec.mk 25 1)])))).map
      (fun r => (r.item, r.product_number)) = [str "Widget"].zip [str "A1"] :=
  (C8_roundtrip_amended 1 [str "Widget"] [str "A1"] (some [2]) none none none
    (some [Dec.mk 25 1]) _ rfl (by decide) (by decide)
    (by intro ms h; cases h; rfl)
    (by intro ms h; cases h)
    (by intro ms h; cases h)
    (by intro ps h; cases h; rfl)
    (by intro ms h; cases h; decide)
    (by intro ms h; cases h)
    (by intro ms h; cases h)
    (by intro ms h; cases h)
    (by decide) (by decide)).1
